import Mathlib

/-!
Verification of the NanoCrab command-policy engine and approval state machine.

The TypeScript sources (src/codex/runner.ts, src/router.ts and the safe-dir
policy variant of the runner) are shallowly embedded here.  Strings are
modelled as `List Char`; JavaScript regular expressions that the code builds
are embedded by their matching semantics (the only regexes the code builds
from pattern configuration are the word-boundary literal form
`\bESCAPED\b` with the `i` flag and the escaped-literal fallback, plus a
custom form whose semantics is kept abstract).  Case-insensitive matching is
modelled with ASCII case folding, which is exact on the ASCII texts the
policies handle.  The file is organised as: all definitions first, then all
theorems.
-/

set_option maxHeartbeats 1000000

namespace NanoCrab

/-! ## Character classes and basic string operations -/

/-- JS `\s` (whitespace class), restricted to the ASCII range used by the
    sources: space, tab, LF, CR, vertical tab, form feed. -/
def isWs (c : Char) : Bool :=
  c = ' ' || c = '\t' || c = '\n' || c = '\r' || c = '\x0b' || c = '\x0c'

/-- JS `\w` (word character): ASCII letter, digit or underscore. -/
def isWordChar (c : Char) : Bool :=
  ('a' ≤ c && c ≤ 'z') || ('A' ≤ c && c ≤ 'Z') || ('0' ≤ c && c ≤ '9') || c = '_'

/-- ASCII lower-casing, the fragment of `toLowerCase` / the regex `i` flag
    exercised by the embedded code. -/
def lowerC (c : Char) : Char := c.toLower

def lowerL (s : List Char) : List Char := s.map lowerC

/-- `[A-Z_]`, the character class of section-label lines. -/
def isLabelChar (c : Char) : Bool := ('A' ≤ c && c ≤ 'Z') || c = '_'

/-- `:` or the full-width CJK colon `：`. -/
def isColon (c : Char) : Bool := c = ':' || c = '：'

/-- Left trim under JS whitespace. -/
def trimL (s : List Char) : List Char := s.dropWhile isWs

/-- Right trim under JS whitespace. -/
def trimR (s : List Char) : List Char := (s.reverse.dropWhile isWs).reverse

/-- JS `String.prototype.trim`. -/
def trim (s : List Char) : List Char := trimR (trimL s)

/-- Case-insensitive "p is a leading part of s". -/
def ciLeads : List Char → List Char → Bool
  | [], _ => true
  | _ :: _, [] => false
  | p :: ps, s :: ss => (lowerC p = lowerC s) && ciLeads ps ss

/-- `startsWith` on char lists (case-sensitive). -/
def leadsWith : List Char → List Char → Bool
  | [], _ => true
  | _ :: _, [] => false
  | p :: ps, s :: ss => (p = s) && leadsWith ps ss

/-! ## Word-boundary matching semantics -/

/-- Whether position `k` of `cmd` is a JS `\b` word boundary (a transition
    between a word character and a non-word character, with positions outside
    the string counting as non-word). -/
def boundaryAt (cmd : List Char) (k : Nat) : Bool :=
  let wordAt : Nat → Bool := fun j =>
    match cmd[j]? with
    | some c => isWordChar c
    | none => false
  match k with
  | 0 => wordAt 0
  | j + 1 => wordAt j != wordAt (j + 1)

/-- Semantics of the compiled literal pattern `\bESCAPED(lit)\b` with the `i`
    flag: `lit` occurs in `cmd` at a position delimited by word boundaries,
    compared case-insensitively. -/
def wordMatch (lit cmd : List Char) : Bool :=
  (List.range (cmd.length + 1)).any fun i =>
    boundaryAt cmd i && ciLeads lit (cmd.drop i) && boundaryAt cmd (i + lit.length)

/-- Semantics of the fallback pattern `ESCAPED(raw)` with the `i` flag:
    a case-insensitive substring occurrence. -/
def substrMatch (lit cmd : List Char) : Bool :=
  (List.range (cmd.length + 1)).any fun i => ciLeads lit (cmd.drop i)

/-- Declarative form of word-boundary occurrence: the property the spec
    names "P occurs as a whole word in C under case-insensitive
    word-boundary matching". -/
def OccursAsWord (p c : List Char) : Prop :=
  ∃ i, i + p.length ≤ c.length ∧
    lowerL ((c.drop i).take p.length) = lowerL p ∧
    boundaryAt c i = true ∧ boundaryAt c (i + p.length) = true

instance (p c : List Char) : Decidable (OccursAsWord p c) := by
  unfold OccursAsWord
  exact decidable_of_iff (∃ i, i ≤ c.length ∧ (i + p.length ≤ c.length ∧
      lowerL ((c.drop i).take p.length) = lowerL p ∧
      boundaryAt c i = true ∧ boundaryAt c (i + p.length) = true))
    (by
      constructor
      · rintro ⟨i, _, h⟩; exact ⟨i, h⟩
      · rintro ⟨i, h⟩; exact ⟨i, by omega, h⟩)

/-! ## Pattern compilation (runner.ts `compilePattern` / `compilePatterns` /
    `matchesAny`) -/

/-- The compiled form of one configuration pattern.
    `wordCI raw` is the regex `\b<escapeRegex raw>\b` with flag `i`;
    `substrCI raw` is the fallback regex `<escapeRegex raw>` with flag `i`
    (a case-insensitive substring match of the raw text, since escaping makes
    every metacharacter literal); `custom body flags` is a successfully
    compiled user regex, whose matching semantics stays abstract. -/
inductive CompiledRegex where
  | wordCI (raw : List Char)
  | substrCI (raw : List Char)
  | custom (body flags : List Char)
  deriving DecidableEq

/-- The abstract pieces of the JS regex engine the embedding does not model:
    whether `new RegExp(body, flags)` succeeds, and how a successfully
    compiled custom regex tests a command string. -/
structure RegexSem where
  canCompile : List Char → List Char → Bool
  customTest : List Char → List Char → List Char → Bool

/-- Index of the last occurrence of `c` (JS `lastIndexOf`, `none` for -1). -/
def lastIdxOf (c : Char) : List Char → Option Nat
  | [] => none
  | x :: xs =>
    match lastIdxOf c xs with
    | some i => some (i + 1)
    | none => if x = c then some 0 else none

/-- Membership in the JS regex flag alphabet `[gimsuy]` accepted by the code. -/
def isStdFlag (c : Char) : Bool :=
  c = 'g' || c = 'i' || c = 'm' || c = 's' || c = 'u' || c = 'y'

/-- Whether `raw` is written in `/body/flags` syntax
    (`raw.startsWith("/") && raw.lastIndexOf("/") > 0`). -/
def isSlashSyntax (raw : List Char) : Bool :=
  raw.head? = some '/' &&
    match lastIdxOf '/' raw with
    | some i => 0 < i
    | none => false

/-- runner.ts `compilePattern`, with `cc` standing for "the RegExp
    constructor succeeds" (its `catch` branch is `cc … = false`). -/
def compilePattern (cc : List Char → List Char → Bool) (raw : List Char) :
    CompiledRegex :=
  if isSlashSyntax raw then
    match lastIdxOf '/' raw with
    | some i =>
      let body := (raw.take i).drop 1
      let flags := raw.drop (i + 1)
      if flags ≠ [] && !flags.all isStdFlag then .substrCI raw
      else
        let flags' := if flags = [] then ['i'] else flags
        if cc body flags' then .custom body flags' else .substrCI raw
    | none => .wordCI raw
  else .wordCI raw

/-- Matching semantics of a compiled pattern against a command string. -/
def testPat (sem : RegexSem) : CompiledRegex → List Char → Bool
  | .wordCI raw, cmd => wordMatch raw cmd
  | .substrCI raw, cmd => substrMatch raw cmd
  | .custom body flags, cmd => sem.customTest body flags cmd

/-- runner.ts `compilePatterns`: trim each raw pattern, drop empties,
    compile the rest. -/
def compilePatterns (sem : RegexSem) (list : List (List Char)) :
    List CompiledRegex :=
  (((list.map trim).filter (· ≠ [])).map (compilePattern sem.canCompile))

/-- runner.ts `matchesAny` over already-compiled patterns. -/
def matchesAny (sem : RegexSem) (command : List Char)
    (patterns : List CompiledRegex) : Bool :=
  patterns.any (fun p => testPat sem p command)

/-- `matchesAny` applied to a raw configuration list, as `evaluateCommandPolicy`
    uses it. -/
def matchesAnyRaw (sem : RegexSem) (command : List Char)
    (raws : List (List Char)) : Bool :=
  matchesAny sem command (compilePatterns sem raws)

/-- A trivial instantiation of the abstract regex-engine pieces, used to
    instantiate theorems over `RegexSem` at concrete inputs. -/
def semDefault : RegexSem :=
  { canCompile := fun _ _ => false, customTest := fun _ _ _ => false }

/-! ## Proposal data model and command policy (runner.ts) -/

/-- runner.ts `ProposalResult`.  The impure `approvalId` field
    (`appr_<timestamp>_<random>`, regenerated on every parse) is omitted from
    the embedding; the claims about the parser are all stated modulo it. -/
structure ProposalResult where
  needsApproval : Bool
  summary : List Char
  response : List Char
  commands : List (List Char)
  files : List (List Char)
  deriving DecidableEq

/-- runner.ts `CommandPolicy`. -/
structure CommandPolicy where
  blocked : Bool
  blockedCommands : List (List Char)
  needsApproval : Bool
  autoExecute : Bool
  deriving DecidableEq

/-- runner.ts `evaluateCommandPolicy` (the allow/confirm/block variant),
    parametrised by the three configured raw pattern lists. -/
def evaluateCommandPolicy (sem : RegexSem)
    (blockRaw confirmRaw allowRaw : List (List Char))
    (commands : List (List Char)) : CommandPolicy :=
  let blockPatterns := compilePatterns sem blockRaw
  let confirmPatterns := compilePatterns sem confirmRaw
  let allowPatterns := compilePatterns sem allowRaw
  let blockedCommands := commands.filter fun cmd => matchesAny sem cmd blockPatterns
  let needsApproval := commands.any fun cmd => matchesAny sem cmd confirmPatterns
  let allowAll := !allowPatterns.isEmpty && !commands.isEmpty &&
    commands.all fun cmd => matchesAny sem cmd allowPatterns
  { blocked := !blockedCommands.isEmpty
    blockedCommands := blockedCommands
    needsApproval := needsApproval
    autoExecute := allowAll && !needsApproval }

/-- runner.ts `computeApprovalDecision`. -/
def computeApprovalDecision (parsed : ProposalResult) (policy : CommandPolicy) :
    Bool :=
  if policy.blocked then true
  else if policy.autoExecute then false
  else parsed.needsApproval || policy.needsApproval || !parsed.files.isEmpty

/-! ## Proposal parsing (runner.ts `parseProposal` / `extractSection` /
    `parseListSection`)

    The parser is driven by three JS regex searches:
    `NEEDS_APPROVAL\s*[:：]\s*(yes|no)` (case-insensitive),
    `LABEL\s*[:：]` (case-insensitive), and `\n[A-Z_]+\s*[:：]\s*`.
    Each is embedded as a deterministic left-to-right scan; greediness of
    `\s*`, `[A-Z_]+` needs no backtracking because the classes involved are
    pairwise disjoint from the characters that must follow them. -/

/-- Try to match `NEEDS_APPROVAL\s*[:：]\s*(yes|no)` (case-insensitive) at the
    start of `s`, returning the captured yes/no. -/
def matchNA (s : List Char) : Option Bool :=
  if ciLeads ("NEEDS_APPROVAL".data) s then
    let r1 := (s.drop 14).dropWhile isWs
    match r1 with
    | c :: r2 =>
      if isColon c then
        let r3 := r2.dropWhile isWs
        if ciLeads ("yes".data) r3 then some true
        else if ciLeads ("no".data) r3 then some false
        else none
      else none
    | [] => none
  else none

/-- Leftmost match of the NEEDS_APPROVAL line anywhere in `s`. -/
def scanNA : List Char → Option Bool
  | [] => matchNA []
  | c :: t =>
    match matchNA (c :: t) with
    | some b => some b
    | none => scanNA t

/-- Try to match `LABEL\s*[:：]` (case-insensitive) at the start of `s`;
    on success return the text after the match (`extractSection`'s `after`). -/
def matchLabel (label s : List Char) : Option (List Char) :=
  if ciLeads label s then
    match (s.drop label.length).dropWhile isWs with
    | c :: r => if isColon c then some r else none
    | [] => none
  else none

/-- Leftmost match of `LABEL\s*[:：]` anywhere in `s`. -/
def scanLabel (label : List Char) : List Char → Option (List Char)
  | [] => matchLabel label []
  | c :: t =>
    match matchLabel label (c :: t) with
    | some r => some r
    | none => scanLabel label t

/-- Whether a string starts with a colon character. -/
def headIsColon (l : List Char) : Bool :=
  match l.head? with
  | some d => isColon d
  | none => false

/-- Whether a string starts with a `[A-Z_]` character. -/
def headIsLabelChar (l : List Char) : Bool :=
  match l.head? with
  | some c => isLabelChar c
  | none => false

/-- Whether `\n[A-Z_]+\s*[:：]` matches at the start of `s` (the next-section
    marker of `extractSection`; its trailing `\s*` cannot affect the match
    position).  The `[A-Z_]+` and `\s*` runs are maximal; greediness needs no
    backtracking since the classes are disjoint from the colon that must
    follow. -/
def markerAt (s : List Char) : Bool :=
  match s with
  | '\n' :: r =>
    headIsLabelChar r && headIsColon ((r.dropWhile isLabelChar).dropWhile isWs)
  | _ => false

/-- Index of the leftmost next-section marker (JS `search`, `none` for -1). -/
def markerSearch : List Char → Option Nat
  | [] => if markerAt [] then some 0 else none
  | c :: t =>
    if markerAt (c :: t) then some 0 else (markerSearch t).map (· + 1)

/-- runner.ts `extractSection`. -/
def extractSection (text label : List Char) : List Char :=
  match scanLabel label text with
  | none => []
  | some after =>
    match markerSearch after with
    | none => trim after
    | some k => trim (after.take k)

/-- Split on `\r?\n` (JS `split(/\r?\n/)`). -/
def splitLines : List Char → List (List Char)
  | [] => [[]]
  | '\r' :: '\n' :: t => [] :: splitLines t
  | '\n' :: t => [] :: splitLines t
  | c :: t =>
    match splitLines t with
    | l :: ls => (c :: l) :: ls
    | [] => [[c]]

/-- Strip one leading `\s*-\s*` bullet (JS `replace(/^\s*-\s*/, "")`) and
    trim; the replace applies only when a `-` follows the leading
    whitespace. -/
def stripBullet (line : List Char) : List Char :=
  match line.dropWhile isWs with
  | '-' :: r => trim (r.dropWhile isWs)
  | _ => trim line

/-- runner.ts `parseListSection`. -/
def parseListSection (section' : List Char) : List (List Char) :=
  if section' = [] then []
  else
    (((splitLines section').map stripBullet).filter (· ≠ [])).filter
      fun item => lowerL item ≠ ("none".data)

/-- runner.ts `parseProposal` (modulo the regenerated approval id). -/
def parseProposal (output : List Char) : Option ProposalResult :=
  match scanNA output with
  | none => none
  | some b =>
    some
      { needsApproval := b
        summary := extractSection output ("SUMMARY".data)
        response := extractSection output ("RESPONSE".data)
        commands := parseListSection (extractSection output ("COMMANDS".data))
        files := parseListSection (extractSection output ("FILES".data)) }

/-- Whether `output` contains a NEEDS_APPROVAL line with a yes/no value
    anywhere (the spec-side condition for parseability). -/
def HasNeedsApprovalLine (output : List Char) : Prop :=
  ∃ i, i ≤ output.length ∧ (matchNA (output.drop i)).isSome

instance (output : List Char) : Decidable (HasNeedsApprovalLine output) := by
  unfold HasNeedsApprovalLine
  infer_instance

/-- Whether `LABEL\s*[:：]` occurs anywhere in `output` (the spec-side
    condition for a section to be present). -/
def HasLabel (label output : List Char) : Prop :=
  ∃ i, i ≤ output.length ∧ (matchLabel label (output.drop i)).isSome

instance (label output : List Char) : Decidable (HasLabel label output) := by
  unfold HasLabel
  infer_instance

/-! ## The proposal-mode outcome of `runCodexCli` (runner.ts lines 92-128) -/

/-- The observable outcome of a proposal-mode run, as the Router sees it.
    `unparsedMessage` is the degraded plain message of a failed parse;
    `blockedMessage` is the plain message naming the blocked commands;
    `autoExecuted` stands for the recursive execute-mode invocation;
    `plainMessage` relays the agent's own response text;
    `needsApprovalResp` is the `needs_approval` response (the only outcome on
    which the Router creates an ApprovalRecord). -/
inductive ProposalOutcome where
  | unparsedMessage (text : List Char)
  | blockedMessage (blockedCommands : List (List Char))
  | autoExecuted
  | plainMessage (text : List Char)
  | needsApprovalResp (summary response : List Char)
  deriving DecidableEq

/-- The pure part of `runCodexCli` in proposal mode after the subprocess
    output `output` is captured: parse, evaluate policy, decide. -/
def resolveProposal (sem : RegexSem)
    (blockRaw confirmRaw allowRaw : List (List Char)) (allowAuto : Bool)
    (output : List Char) : ProposalOutcome :=
  match parseProposal output with
  | none => .unparsedMessage (trim output)
  | some parsed =>
    let policy := evaluateCommandPolicy sem blockRaw confirmRaw allowRaw
      parsed.commands
    if policy.blocked then .blockedMessage policy.blockedCommands
    else if !computeApprovalDecision parsed policy then
      if policy.autoExecute && allowAuto then .autoExecuted
      else .plainMessage parsed.response
    else .needsApprovalResp parsed.summary parsed.response

/-! ## Serialization of a proposal (the NEEDS_APPROVAL format of
    `buildPrompt`, written from the spec's description of the round-trip) -/

/-- The bulleted body of a COMMANDS/FILES section without its final newline:
    `- none` for an empty list, otherwise `- item` lines joined by
    newlines. -/
def bulletCore : List (List Char) → List Char
  | [] => ("- none".data)
  | [x] => ("- ".data) ++ x
  | x :: y :: ys => ("- ".data) ++ x ++ '\n' :: bulletCore (y :: ys)

/-- Serialization of a `ProposalResult` in the structured format the agent is
    instructed to emit: the NEEDS_APPROVAL line, the SUMMARY line, the
    COMMANDS and FILES sections as `- ` bulleted lines (with `- none` for an
    empty list), and the RESPONSE body. -/
def serializeProposal (p : ProposalResult) : List Char :=
  ("NEEDS_APPROVAL: ".data) ++
    (if p.needsApproval then ("yes".data) else ("no".data)) ++
  ("\nSUMMARY: ".data) ++ p.summary ++
  ("\nCOMMANDS:\n".data) ++ bulletCore p.commands ++ ['\n'] ++
  ("FILES:\n".data) ++ bulletCore p.files ++ ['\n'] ++
  ("RESPONSE:\n".data) ++ p.response

/-- The serialized text that follows the summary field: the COMMANDS, FILES
    and RESPONSE sections, associated so that each abstract region is
    followed by a newline-headed concrete continuation. -/
def serializedTail (p : ProposalResult) : List Char :=
  '\n' :: (("COMMANDS:\n".data) ++ (bulletCore p.commands ++
    ('\n' :: (("FILES:\n".data) ++ (bulletCore p.files ++
      ('\n' :: (("RESPONSE:\n".data) ++ p.response)))))))

/-- No colon of either form occurs in the string. -/
def noColonB (l : List Char) : Bool := l.all fun c => !isColon c

/-- No line break (LF or CR) occurs in the string. -/
def noNewlineB (l : List Char) : Bool := l.all fun c => !(c = '\n') && !(c = '\r')

/-- Well-formedness of one COMMANDS/FILES list item: nonempty, colon-free,
    single-line, without surrounding whitespace, and not the literal
    `none`. -/
def itemOk (x : List Char) : Bool :=
  decide (x ≠ []) && noColonB x && noNewlineB x &&
  decide (trimL x = x) && decide (trimR x = x) &&
  decide (lowerL x ≠ ("none".data))

/-- Well-formedness of a proposal for the round-trip: the summary is a
    single colon-free trimmed line, the response is colon-free and trimmed
    (it may span lines), and every command/file item is well-formed.  A
    colon-free field can spell neither a `LABEL:` marker nor a
    `NEEDS_APPROVAL:` line, which is what makes the serialized sections
    unambiguous. -/
def wellFormedProposal (p : ProposalResult) : Bool :=
  noColonB p.summary && noNewlineB p.summary &&
  decide (trimL p.summary = p.summary) &&
  decide (trimR p.summary = p.summary) &&
  noColonB p.response &&
  decide (trimL p.response = p.response) &&
  decide (trimR p.response = p.response) &&
  p.commands.all itemOk && p.files.all itemOk

/-- The shape of the text that follows an abstract field region in the
    serialized form: either the end of the text, or a newline followed by a
    label character that is neither whitespace nor a colon.  Scans for a
    section marker or a label cannot straddle out of a colon-free region
    into such a continuation. -/
def RestShape (rest : List Char) : Prop :=
  rest = [] ∨
    ∃ b rr, rest = '\n' :: b :: rr ∧ isWs b = false ∧ isColon b = false

/-! ## CLI argument construction (runner.ts `runCodexCli`, lines 54-77) -/

/-- The two invocation modes of the agent runner. -/
inductive CodexRunMode where
  | proposal
  | execute
  deriving DecidableEq

/-- The argument vector `runCodexCli` passes to the agent binary: the fixed
    base flags, then `-m <model>` when a model override is set, then the
    mode-capability flag (`-s read-only` for proposal, `--full-auto` for
    execute), then `resume <id>` when a session id is known. -/
def buildCliArgs (modelOverride : Option (List Char)) (mode : CodexRunMode)
    (workspaceDir outputFile : List Char)
    (resumeSessionId : Option (List Char)) : List (List Char) :=
  [("exec".data), ("--skip-git-repo-check".data), ("-C".data), workspaceDir,
   ("--color".data), ("never".data), ("-o".data), outputFile] ++
  (match modelOverride with
   | some m => [("-m".data), m]
   | none => []) ++
  (match mode with
   | .proposal => [("-s".data), ("read-only".data)]
   | .execute => [("--full-auto".data)]) ++
  (match resumeSessionId with
   | some sid => [("resume".data), sid]
   | none => [])

/-- The argument vector of the safe-dir runner variant (part_001, lines
    54-77): identical to `buildCliArgs` except that proposal mode passes
    `-s workspace-write` (a write-to-workspace sandbox) instead of
    `-s read-only`. -/
def buildCliArgsSafe (modelOverride : Option (List Char)) (mode : CodexRunMode)
    (workspaceDir outputFile : List Char)
    (resumeSessionId : Option (List Char)) : List (List Char) :=
  [("exec".data), ("--skip-git-repo-check".data), ("-C".data), workspaceDir,
   ("--color".data), ("never".data), ("-o".data), outputFile] ++
  (match modelOverride with
   | some m => [("-m".data), m]
   | none => []) ++
  (match mode with
   | .proposal => [("-s".data), ("workspace-write".data)]
   | .execute => [("--full-auto".data)]) ++
  (match resumeSessionId with
   | some sid => [("resume".data), sid]
   | none => [])

/-! ## Router pending-approval handling (router.ts `handleInbound`,
    lines 102-134) -/

/-- What the router does with an inbound message while a pending
    ApprovalRecord exists.  `rejectedNotice`: the record is marked rejected
    and a cancellation notice is sent, with no agent invocation;
    `rejectedExitPlugin`: the record is marked rejected, the plugin state is
    cleared and a notice is sent, with no agent invocation;
    `approvedExecute`: the record is marked approved and the agent is
    re-invoked in execute mode on the deserialized payload;
    `reprompt`: the record stays pending and the user is re-prompted for
    confirm/cancel. -/
inductive PendingOutcome where
  | rejectedNotice
  | rejectedExitPlugin
  | approvedExecute
  | reprompt
  deriving DecidableEq

/-- `REJECT_COMMANDS.has(lower) || lower.startsWith("/cancel") ||
    lower.startsWith("/reject")`. -/
def isRejectCmdSignal (lower : List Char) : Bool :=
  decide (lower = ("/cancel".data)) || decide (lower = ("/reject".data)) ||
    leadsWith ("/cancel".data) lower || leadsWith ("/reject".data) lower

/-- `CONFIRM_COMMANDS.has(lower) || lower.startsWith("/confirm") ||
    lower.startsWith("/approve")`. -/
def isConfirmCmdSignal (lower : List Char) : Bool :=
  decide (lower = ("/confirm".data)) || decide (lower = ("/approve".data)) ||
    leadsWith ("/confirm".data) lower || leadsWith ("/approve".data) lower

/-- `CONFIRM_PATTERN.test(text)` with
    `CONFIRM_PATTERN = /^(yes|y|确认|好|ok|执行)$/i`. -/
def confirmPhrase (t : List Char) : Bool :=
  decide (lowerL t = ("yes".data)) || decide (lowerL t = ("y".data)) ||
    decide (lowerL t = ("确认".data)) || decide (lowerL t = ("好".data)) ||
    decide (lowerL t = ("ok".data)) || decide (lowerL t = ("执行".data))

/-- `REJECT_PATTERN.test(text)` with
    `REJECT_PATTERN = /^(no|n|取消|不要|stop)$/i`. -/
def rejectPhrase (t : List Char) : Bool :=
  decide (lowerL t = ("no".data)) || decide (lowerL t = ("n".data)) ||
    decide (lowerL t = ("取消".data)) || decide (lowerL t = ("不要".data)) ||
    decide (lowerL t = ("stop".data))

/-- `text.startsWith("/") && text.slice(1).trim().toLowerCase() === "exit"`. -/
def isExitCmd (t : List Char) : Bool :=
  decide (t.head? = some '/') && decide (lowerL (trim (t.drop 1)) = ("exit".data))

/-- The pending-approval branch of `handleInbound`: given the inbound message
    text, decide how the pending record is resolved (source order: reject
    commands, then the plugin-exit command, then confirm commands and
    affirmative phrases, then negative phrases, else re-prompt). -/
def resolvePendingMessage (message : List Char) : PendingOutcome :=
  let t := trim message
  let lower := lowerL t
  if isRejectCmdSignal lower then .rejectedNotice
  else if isExitCmd t then .rejectedExitPlugin
  else if isConfirmCmdSignal lower || confirmPhrase t then .approvedExecute
  else if rejectPhrase t then .rejectedNotice
  else .reprompt

/-- The claim's reading of a reject signal: a reject command or a
    natural-language negative. -/
def claimRejectSignal (message : List Char) : Bool :=
  isRejectCmdSignal (lowerL (trim message)) || rejectPhrase (trim message)

/-- The claim's reading of a confirm signal: a confirm command or a
    natural-language affirmative. -/
def claimConfirmSignal (message : List Char) : Bool :=
  isConfirmCmdSignal (lowerL (trim message)) || confirmPhrase (trim message)

/-- The amended claim's decision tree over an inbound message with a pending
    approval: reject signals reject, the plugin-exit command rejects and
    clears the plugin, confirm signals approve and re-invoke execute mode,
    anything else re-prompts. -/
def claimPendingOutcome (message : List Char) : PendingOutcome :=
  if claimRejectSignal message then .rejectedNotice
  else if isExitCmd (trim message) then .rejectedExitPlugin
  else if claimConfirmSignal message then .approvedExecute
  else .reprompt

/-! ## Shell tokenization (safe-dir runner variant, `shellSplit`) -/

/-- The character loop of `shellSplit`: `quote` is the open quote character
    (if any), `escaped` records a pending backslash escape, `buf` the token
    being accumulated.  Completed tokens are emitted in order (the source
    pushes them onto an output array); an empty `buf` is never emitted. -/
def shellSplitGo (quote : Option Char) (escaped : Bool) (buf : List Char) :
    List Char → List (List Char)
  | [] => if buf = [] then [] else [buf]
  | [c] =>
    -- Last character: the two-character separator lookahead cannot fire, and
    -- the final flush of the empty remainder is inlined into each branch.
    if escaped then (if buf ++ [c] = [] then [] else [buf ++ [c]])
    else if c = '\\' ∧ quote ≠ some '\'' then (if buf = [] then [] else [buf])
    else if quote ≠ none then
      (if some c = quote then (if buf = [] then [] else [buf])
       else (if buf ++ [c] = [] then [] else [buf ++ [c]]))
    else if c = '\'' ∨ c = '"' then (if buf = [] then [] else [buf])
    else if isWs c then (if buf = [] then [] else [buf])
    else if c = ';' ∨ c = '|' then
      (if buf = [] then [] else [buf]) ++ [[c]]
    else (if buf ++ [c] = [] then [] else [buf ++ [c]])
  | c :: c2 :: rest2 =>
    if escaped then shellSplitGo quote false (buf ++ [c]) (c2 :: rest2)
    else if c = '\\' ∧ quote ≠ some '\'' then
      shellSplitGo quote true buf (c2 :: rest2)
    else if quote ≠ none then
      (if some c = quote then shellSplitGo none false buf (c2 :: rest2)
       else shellSplitGo quote false (buf ++ [c]) (c2 :: rest2))
    else if c = '\'' ∨ c = '"' then shellSplitGo (some c) false buf (c2 :: rest2)
    else if isWs c then
      (if buf = [] then [] else [buf]) ++
        shellSplitGo none false [] (c2 :: rest2)
    else if (c = '&' ∨ c = '|') ∧ c2 = c then
      (if buf = [] then [] else [buf]) ++
        [c, c] :: shellSplitGo none false [] rest2
    else if c = ';' ∨ c = '|' then
      (if buf = [] then [] else [buf]) ++
        [c] :: shellSplitGo none false [] (c2 :: rest2)
    else shellSplitGo none false (buf ++ [c]) (c2 :: rest2)
termination_by structural l => l

/-- `shellSplit` of the safe-dir runner variant. -/
def shellSplit (input : List Char) : List (List Char) :=
  shellSplitGo none false [] input

/-- `token === "rm" || token.endsWith("/rm")`. -/
def isRmTok (tok : List Char) : Bool :=
  decide (tok = ("rm".data)) || ("/rm".data).isSuffixOf tok

/-- The statement separators recognised by `extractRmTargetsFromTokens`. -/
def isOpTok (tok : List Char) : Bool :=
  decide (tok = ("&&".data)) || decide (tok = ("||".data)) ||
    decide (tok = (";".data)) || decide (tok = ("|".data))

/-- `extractRmTargetsFromTokens`: the outer scan looks for an `rm` token
    (`grabbing = false`); after one, non-flag arguments are collected until a
    statement separator (`grabbing = true`, with `afterDD` set once a literal
    `--` was seen).  When the inner collection stops at a separator the
    source's outer loop re-inspects that separator token, which is never an
    `rm` token, so the scan simply resumes after it. -/
def rmTargetsScan : Bool → Bool → List (List Char) → List (List Char)
  | _, _, [] => []
  | false, _, tok :: rest =>
    if isRmTok tok then rmTargetsScan true false rest
    else rmTargetsScan false false rest
  | true, afterDD, tok :: rest =>
    if isOpTok tok then rmTargetsScan false false rest
    else if tok = ("--".data) then rmTargetsScan true true rest
    else if afterDD ∨ ¬ (leadsWith (['-']) tok = true) then
      tok :: rmTargetsScan true afterDD rest
    else rmTargetsScan true afterDD rest

/-- The `-c` / `-lc` nested-command search of `extractRmTargets`: the first
    adjacent pair whose left token is `-c` or `-lc` and whose right token is
    nonempty (truthy). -/
def findNestedCmd : List (List Char) → Option (List Char)
  | t1 :: t2 :: rest =>
    if (t1 = ("-c".data) ∨ t1 = ("-lc".data)) ∧ t2 ≠ [] then some t2
    else findNestedCmd (t2 :: rest)
  | _ => none

/-- Total character count of a token list, used to justify termination of the
    nested-command recursion in `extractRmTargets`. -/
def tokensLen (ts : List (List Char)) : Nat := (ts.map List.length).sum

/-- Tokenization never increases the total character count (characters are
    copied into at most one token or dropped). -/
def shellSplitGoBound : ∀ (quote : Option Char) (escaped : Bool)
    (buf l : List Char),
    tokensLen (shellSplitGo quote escaped buf l) ≤ buf.length + l.length
  | quote, escaped, buf, [] => by
    rw [shellSplitGo]
    split <;> simp [tokensLen]
  | quote, escaped, buf, [c] => by
    rw [shellSplitGo]
    repeat' split
    all_goals simp [tokensLen]
  | quote, escaped, buf, c :: c2 :: rest2 => by
    rw [shellSplitGo]
    by_cases h1 : escaped = true
    · rw [if_pos h1]
      have ih := shellSplitGoBound quote false (buf ++ [c]) (c2 :: rest2)
      simp only [List.length_append, List.length_cons, List.length_singleton,
        List.length_nil] at ih ⊢
      omega
    · rw [if_neg h1]
      by_cases h2 : c = '\\' ∧ quote ≠ some '\''
      · rw [if_pos h2]
        have ih := shellSplitGoBound quote true buf (c2 :: rest2)
        simp only [List.length_cons] at ih ⊢
        omega
      · rw [if_neg h2]
        by_cases h3 : quote ≠ none
        · rw [if_pos h3]
          by_cases h4 : some c = quote
          · rw [if_pos h4]
            have ih := shellSplitGoBound none false buf (c2 :: rest2)
            simp only [List.length_cons] at ih ⊢
            omega
          · rw [if_neg h4]
            have ih := shellSplitGoBound quote false (buf ++ [c]) (c2 :: rest2)
            simp only [List.length_append, List.length_cons,
              List.length_singleton, List.length_nil] at ih ⊢
            omega
        · rw [if_neg h3]
          by_cases h5 : c = '\'' ∨ c = '"'
          · rw [if_pos h5]
            have ih := shellSplitGoBound (some c) false buf (c2 :: rest2)
            simp only [List.length_cons] at ih ⊢
            omega
          · rw [if_neg h5]
            by_cases h6 : isWs c = true
            · rw [if_pos h6]
              have ih := shellSplitGoBound none false [] (c2 :: rest2)
              by_cases hb : buf = [] <;>
                simp [hb, tokensLen, List.map_append] at ih ⊢ <;> omega
            · rw [if_neg h6]
              by_cases h7 : (c = '&' ∨ c = '|') ∧ c2 = c
              · rw [if_pos h7]
                have ih := shellSplitGoBound none false [] rest2
                by_cases hb : buf = [] <;>
                  simp [hb, tokensLen, List.map_append] at ih ⊢ <;> omega
              · rw [if_neg h7]
                by_cases h8 : c = ';' ∨ c = '|'
                · rw [if_pos h8]
                  have ih := shellSplitGoBound none false [] (c2 :: rest2)
                  by_cases hb : buf = [] <;>
                    simp [hb, tokensLen, List.map_append] at ih ⊢ <;> omega
                · rw [if_neg h8]
                  have ih := shellSplitGoBound none false (buf ++ [c])
                    (c2 :: rest2)
                  simp only [List.length_append, List.length_cons,
                    List.length_singleton, List.length_nil] at ih ⊢
                  omega

/-- A nested command found next to a `-c`/`-lc` token accounts for strictly
    fewer characters than the whole token list. -/
def findNestedCmdBound : ∀ (toks : List (List Char)) (nested : List Char),
    findNestedCmd toks = some nested → nested.length + 2 ≤ tokensLen toks
  | [], _, h => by simp [findNestedCmd] at h
  | [t], _, h => by simp [findNestedCmd] at h
  | t1 :: t2 :: rest, nested, h => by
    rw [findNestedCmd] at h
    by_cases hc : (t1 = ("-c".data) ∨ t1 = ("-lc".data)) ∧ t2 ≠ []
    · rw [if_pos hc] at h
      cases h
      rcases hc.1 with h1 | h1 <;> subst h1 <;> simp [tokensLen] <;> omega
    · rw [if_neg hc] at h
      have hrec := findNestedCmdBound (t2 :: rest) nested h
      simp [tokensLen] at hrec ⊢
      omega

/-- `extractRmTargets` of the safe-dir runner variant: tokenize, collect
    direct `rm` targets; if none, recurse into the first `-c`/`-lc` nested
    command string (whose character count is strictly smaller than the
    command's). -/
def extractRmTargets (command : List Char) : List (List Char) :=
  if rmTargetsScan false false (shellSplit command) ≠ [] then
    rmTargetsScan false false (shellSplit command)
  else
    match hfind : findNestedCmd (shellSplit command) with
    | some nested => extractRmTargets nested
    | none => []
termination_by command.length
decreasing_by
  have h1 := shellSplitGoBound none false [] command
  have h2 := findNestedCmdBound _ _ hfind
  simp only [shellSplit, List.length_nil] at h1 h2
  omega

/-! ## POSIX path model (Node `path` module, posix flavour)

    `path.resolve` of an absolute path normalises it (collapsing `.`,  `..`
    and duplicate separators, with excess `..` dropped at the root);
    `path.resolve(base, rel)` with an absolute `base` resolves
    `base + "/" + rel`; `path.relative` resolves both arguments and rebuilds
    the walk from one to the other; `path.join` concatenates and normalises.
    The embedding assumes the POSIX separator and absolute base paths (the
    deployment the sources target). -/

/-- Split on a separator character (keeping empty components). -/
def splitOnChar (sep : Char) : List Char → List (List Char)
  | [] => [[]]
  | c :: t =>
    if c = sep then [] :: splitOnChar sep t
    else
      match splitOnChar sep t with
      | l :: ls => (c :: l) :: ls
      | [] => [[c]]

/-- Component normalisation: `.`/empty components are dropped, `..` pops the
    stack (dropped at the root of an absolute path, kept for a relative
    one). -/
def normalizeStack (absFlag : Bool) (stack : List (List Char)) :
    List (List Char) → List (List Char)
  | [] => stack
  | comp :: rest =>
    if comp = [] ∨ comp = (".".data) then normalizeStack absFlag stack rest
    else if comp = ("..".data) then
      if stack ≠ [] ∧ stack.getLast? ≠ some ("..".data) then
        normalizeStack absFlag stack.dropLast rest
      else if absFlag then normalizeStack absFlag stack rest
      else normalizeStack absFlag (stack ++ [("..".data)]) rest
    else normalizeStack absFlag (stack ++ [comp]) rest

/-- `path.resolve` of an absolute path: normalised components joined under a
    leading separator. -/
def pathResolveAbs (p : List Char) : List Char :=
  '/' :: List.intercalate (['/']) (normalizeStack true [] (splitOnChar '/' p))

/-- `path.normalize`, preserving relative paths (leading `..` kept). -/
def pathNormalize (p : List Char) : List Char :=
  let absFlag := p.head? = some '/'
  let comps := normalizeStack absFlag [] (splitOnChar '/' p)
  let body := List.intercalate (['/']) comps
  if absFlag then '/' :: body
  else if body = [] then (".".data)
  else body

/-- `path.join` of two segments (empty segments are skipped before
    normalisation). -/
def pathJoin (a b : List Char) : List Char :=
  if a = [] ∧ b = [] then (".".data)
  else if a = [] then pathNormalize b
  else if b = [] then pathNormalize a
  else pathNormalize (a ++ '/' :: b)

/-- Length of the common component prefix. -/
def commonLen : List (List Char) → List (List Char) → Nat
  | a :: as, b :: bs => if a = b then 1 + commonLen as bs else 0
  | _, _ => 0

/-- `path.relative(base, cand)` for absolute `base`/`cand`: resolve both,
    drop the common prefix, climb with `..` and descend into the
    remainder. -/
def pathRelative (base cand : List Char) : List Char :=
  let b := normalizeStack true [] (splitOnChar '/' base)
  let c := normalizeStack true [] (splitOnChar '/' cand)
  let k := commonLen b c
  List.intercalate (['/'])
    (List.replicate (b.length - k) ("..".data) ++ c.drop k)

/-- `isSubPath` of the safe-dir runner variant:
    `rel === "" || (!rel.startsWith("..") && !path.isAbsolute(rel))`. -/
def isSubPath (candidate base : List Char) : Bool :=
  let rel := pathRelative base candidate
  decide (rel = []) ||
    (!(leadsWith ("..".data) rel) && !(decide (rel.head? = some '/')))

/-- `expandHome` of the safe-dir runner variant (`home` stands for
    `process.env.HOME`, empty when unset). -/
def expandHome (home input : List Char) : List Char :=
  if input = ("~".data) then (if home ≠ [] then home else input)
  else if leadsWith ("~/".data) input ∨ leadsWith ("~\\".data) input then
    pathJoin home (input.drop 2)
  else input

/-- `normalizePath` of the safe-dir runner variant: strip one surrounding
    quote character from each end (`replace(/^['"]|['"]$/g, "")`). -/
def normalizePath (input : List Char) : List Char :=
  if input = [] then input
  else
    let l1 :=
      match input with
      | c :: t => if c = '\'' ∨ c = '"' then t else input
      | [] => input
    match l1.getLast? with
    | some c => if c = '\'' ∨ c = '"' then l1.dropLast else l1
    | none => l1

/-- `resolveTargetPath` of the safe-dir runner variant (workspace assumed
    absolute, as the router guarantees). -/
def resolveTargetPath (home workspaceDir target : List Char) : List Char :=
  let nt := normalizePath (expandHome home target)
  if nt.head? = some '/' then pathResolveAbs nt
  else pathResolveAbs (workspaceDir ++ '/' :: nt)

/-- First-occurrence deduplication (`[...new Set(merged)]`). -/
def dedupKeepFirst (seen : List (List Char)) :
    List (List Char) → List (List Char)
  | [] => []
  | x :: xs =>
    if x ∈ seen then dedupKeepFirst seen xs
    else x :: dedupKeepFirst (x :: seen) xs

/-- `getSafeRoots` of the safe-dir runner variant: configured safe dirs, the
    persisted safe dirs and the workspace, `~`-expanded, quote-stripped,
    non-empty, deduplicated. -/
def getSafeRoots (safeDirsCfg dbSafeDirs : List (List Char))
    (home workspaceDir : List Char) : List (List Char) :=
  dedupKeepFirst []
    (((safeDirsCfg ++ dbSafeDirs ++ [workspaceDir]).map
      fun d => normalizePath (expandHome home d)).filter (· ≠ []))

/-- `isOutsideSafeRoots` of the safe-dir runner variant. -/
def isOutsideSafeRoots (home target workspaceDir : List Char)
    (safeRoots : List (List Char)) : Bool :=
  if target = [] ∨ target = ("--".data) then false
  else if target.any (fun c => c = '`' || c = '$') then true
  else
    !(safeRoots.any fun root =>
      isSubPath (resolveTargetPath home workspaceDir target) root)

/-- `deletesOutsideSafeDirs` of the safe-dir runner variant. -/
def deletesOutsideSafeDirs (safeDirsCfg dbSafeDirs : List (List Char))
    (home command workspaceDir : List Char) : Bool :=
  let targets := extractRmTargets command
  if targets = [] then false
  else
    let safeRoots := getSafeRoots safeDirsCfg dbSafeDirs home workspaceDir
    if safeRoots = [] then false
    else targets.any fun t => isOutsideSafeRoots home t workspaceDir safeRoots

/-- `evaluateCommandPolicy` of the safe-dir runner variant (part_001):
    block patterns plus the deletion-boundary check; `autoExecute` holds for
    a nonempty command list with no approval need. -/
def evaluateCommandPolicySafe (sem : RegexSem) (blockRaw : List (List Char))
    (safeDirsCfg dbSafeDirs : List (List Char)) (home : List Char)
    (commands : List (List Char)) (workspaceDir : List Char) : CommandPolicy :=
  let blockPatterns := compilePatterns sem blockRaw
  let blockedCommands := commands.filter fun cmd =>
    matchesAny sem cmd blockPatterns
  let needsApproval := commands.any fun cmd =>
    deletesOutsideSafeDirs safeDirsCfg dbSafeDirs home cmd workspaceDir
  { blocked := !blockedCommands.isEmpty
    blockedCommands := blockedCommands
    needsApproval := needsApproval
    autoExecute := !commands.isEmpty && !needsApproval }

/-- `computeApprovalDecision` of the safe-dir runner variant
    (part_001, lines 236-240): a blocked policy forces approval, otherwise
    the decision is exactly the policy's `needsApproval` flag (the
    deletion-boundary verdict); the parsed proposal — its own
    `needsApproval` flag and its file list — is ignored. -/
def computeApprovalDecisionSafe (parsed : ProposalResult)
    (policy : CommandPolicy) : Bool :=
  if policy.blocked then true
  else policy.needsApproval

/-! ## Router workspace safety (`/dir set`, router.ts `handleWorkspaceCommand`
    and `isPathAllowed`) -/

/-- Modelled from the spec: the persistence surface (store/db.ts) is not in
    the sources; the spec describes a persistent safe-dir list with
    `addSafeDir` appending a directory and `getSafeDirs` returning the
    list.  The store is modelled as that list. -/
def addSafeDir (store : List (List Char)) (dir : List Char) :
    List (List Char) :=
  store ++ [dir]

/-- router.ts `expandHomeDir` (`home` stands for `os.homedir()`). -/
def expandHomeDir (home input : List Char) : List Char :=
  if input = ("~".data) then home
  else if leadsWith ("~/".data) input ∨ leadsWith ("~\\".data) input then
    pathJoin home (input.drop 2)
  else input

/-- router.ts `getAllowedDirs`: configured safe dirs plus the persisted
    ones. -/
def getAllowedDirs (safeDirsCfg store : List (List Char)) :
    List (List Char) :=
  safeDirsCfg ++ store

/-- router.ts `isPathAllowed`: an empty allowlist allows everything;
    otherwise the resolved target must equal a resolved root or extend it
    past a path separator. -/
def isPathAllowed (safeDirsCfg store : List (List Char)) (target : List Char) :
    Bool :=
  let allowed := getAllowedDirs safeDirsCfg store
  if allowed = [] then true
  else
    let resolved := pathResolveAbs target
    allowed.any fun root =>
      let normalized := pathResolveAbs root
      decide (resolved = normalized) || leadsWith (normalized ++ ['/']) resolved

/-- The `/dir set <path>` flow of `handleWorkspaceCommand`: expand and
    resolve the named path against the current workspace, add it to the
    persistent safe-dir store, then run the path-allowed check.  Returns the
    updated store, the resolved workspace directory, and the check's
    verdict. -/
def handleDirSetStep (safeDirsCfg store : List (List Char))
    (home baseDir rawPath : List Char) :
    List (List Char) × List Char × Bool :=
  let expanded := expandHomeDir home rawPath
  let workspaceDir :=
    if expanded.head? = some '/' then pathResolveAbs expanded
    else pathResolveAbs (baseDir ++ '/' :: expanded)
  let store' := addSafeDir store workspaceDir
  (store', workspaceDir, isPathAllowed safeDirsCfg store' workspaceDir)

end NanoCrab

namespace NanoCrab

/-! # Theorems -/

/-! ## Basic lemmas -/

theorem ciLeads_nil (p : List Char) : ciLeads p [] = true ↔ p = [] := by
  cases p <;> simp [ciLeads]

theorem ciLeads_iff (p s : List Char) :
    ciLeads p s = true ↔ p.length ≤ s.length ∧ lowerL (s.take p.length) = lowerL p := by
  induction p generalizing s with
  | nil => simp [ciLeads, lowerL]
  | cons c ps ih =>
    cases s with
    | nil => simp [ciLeads]
    | cons d ss =>
      simp only [ciLeads, Bool.and_eq_true, decide_eq_true_eq, ih, List.take_succ_cons,
        lowerL, List.map_cons, List.length_cons, List.cons.injEq]
      constructor
      · rintro ⟨h1, h2, h3⟩
        exact ⟨Nat.succ_le_succ h2, h1.symm, h3⟩
      · rintro ⟨h1, h2, h3⟩
        exact ⟨h2.symm, Nat.le_of_succ_le_succ h1, h3⟩

theorem wordMatch_iff (p c : List Char) :
    wordMatch p c = true ↔ OccursAsWord p c := by
  unfold wordMatch OccursAsWord
  rw [List.any_eq_true]
  constructor
  · rintro ⟨i, hi, h⟩
    rw [List.mem_range] at hi
    simp only [Bool.and_eq_true] at h
    obtain ⟨⟨hb1, hlead⟩, hb2⟩ := h
    rw [ciLeads_iff] at hlead
    obtain ⟨hlen, heq⟩ := hlead
    refine ⟨i, ?_, heq, hb1, hb2⟩
    have := c.length_drop i
    omega
  · rintro ⟨i, hlen, heq, hb1, hb2⟩
    refine ⟨i, ?_, ?_⟩
    · rw [List.mem_range]; omega
    · simp only [Bool.and_eq_true]
      refine ⟨⟨hb1, ?_⟩, hb2⟩
      rw [ciLeads_iff]
      have := c.length_drop i
      constructor
      · omega
      · exact heq

theorem compilePattern_not_slash (cc : List Char → List Char → Bool)
    (raw : List Char) (h : isSlashSyntax raw = false) :
    compilePattern cc raw = .wordCI raw := by
  unfold compilePattern
  rw [h]
  rfl

theorem compilePatterns_singleton (sem : RegexSem) (P : List Char)
    (h1 : P ≠ []) (h2 : trim P = P) :
    compilePatterns sem [P] = [compilePattern sem.canCompile P] := by
  unfold compilePatterns
  rw [List.map_cons, List.map_nil, h2, List.filter_cons]
  simp [h1]

/-! ## Claim C6 -/

/-- C6: for a literal pattern `P` (one not in `/…/flags` syntax, nonempty and
    trim-stable), `matchesAny` over the compiled form of `[P]` holds of a
    command string `C` exactly when `P` occurs in `C` as a whole word under
    case-insensitive word-boundary matching (never as a substring of a larger
    token); in particular `matchesAny "permission denied" ["rm"]` is false
    while `matchesAny "rm -rf /tmp/x" ["rm"]` is true, and `matchesAny` with
    an empty pattern list is always false. -/
theorem C6_matchesAny_word_boundary (sem : RegexSem) (P C : List Char)
    (h1 : P ≠ []) (h2 : trim P = P) (h3 : isSlashSyntax P = false) :
    (matchesAnyRaw sem C [P] = true ↔ OccursAsWord P C) ∧
    matchesAnyRaw sem ("permission denied".data) [("rm".data)] = false ∧
    matchesAnyRaw sem ("rm -rf /tmp/x".data) [("rm".data)] = true ∧
    (∀ D : List Char, matchesAnyRaw sem D [] = false) := by
  refine ⟨?_, ?_, ?_, fun D => rfl⟩
  · unfold matchesAnyRaw
    rw [compilePatterns_singleton sem P h1 h2, compilePattern_not_slash _ _ h3]
    unfold matchesAny
    simp only [List.any_cons, List.any_nil, Bool.or_false, testPat]
    exact wordMatch_iff P C
  · rfl
  · rfl

/-- Concrete instantiation of `C6_matchesAny_word_boundary` at the pattern
    `rm` and the command `rm -rf /tmp/x`. -/
theorem C6_matchesAny_word_boundary_witness :
    OccursAsWord ("rm".data) ("rm -rf /tmp/x".data) :=
  (C6_matchesAny_word_boundary semDefault ("rm".data) ("rm -rf /tmp/x".data)
    (by decide) (by decide) (by decide)).1.mp (by decide)

/-! ## Claim C8 -/

/-- C8: pattern compilation is total and never propagates a regex error: a
    `/body/flags` pattern whose flags are not all drawn from the standard
    flag alphabet, or whose body the RegExp constructor rejects, silently
    degrades to the literal, regex-escaped, case-insensitive match of the
    whole raw string (`substrCI raw`). -/
theorem C8_compile_fallback_total (cc : List Char → List Char → Bool)
    (raw : List Char) (i : Nat)
    (hs : isSlashSyntax raw = true) (hi : lastIdxOf '/' raw = some i)
    (hfail :
      (raw.drop (i + 1) ≠ [] ∧ (raw.drop (i + 1)).all isStdFlag = false) ∨
      cc ((raw.take i).drop 1)
        (if raw.drop (i + 1) = [] then ['i'] else raw.drop (i + 1)) = false) :
    compilePattern cc raw = .substrCI raw := by
  unfold compilePattern
  rw [hs, if_pos rfl, hi]
  simp only
  rcases hfail with ⟨hne, hbad⟩ | hcc
  · rw [if_pos (by simp [hne, hbad])]
  · by_cases hflags : raw.drop (i + 1) ≠ [] ∧ (raw.drop (i + 1)).all isStdFlag = false
    · rw [if_pos (by simp [hflags.1, hflags.2])]
    · rw [if_neg (by
        intro hcontra
        rw [Bool.and_eq_true, Bool.not_eq_true'] at hcontra
        exact hflags ⟨by simpa using hcontra.1, hcontra.2⟩)]
      simp only [hcc]
      rfl

/-- Concrete instantiation of `C8_compile_fallback_total`: the pattern
    `/ab/xq` carries a flag outside `[gimsuy]`, so it degrades to the
    escaped-literal fallback even under an always-succeeding constructor. -/
theorem C8_compile_fallback_total_witness :
    compilePattern (fun _ _ => true) ("/ab/xq".data) = .substrCI ("/ab/xq".data) :=
  C8_compile_fallback_total (fun _ _ => true) ("/ab/xq".data) 3
    (by decide) (by decide) (Or.inl (by decide))

/-! ## Claim C1 -/

/-- C1: whenever a parsed proposal's command list contains a command matching
    a block pattern, the computed policy has `blocked = true`, the final
    approval decision is "requires confirmation" regardless of `autoExecute`,
    and the proposal-mode run resolves to the plain message naming the
    blocked commands — never to the `needs_approval` response (so no
    ApprovalRecord is created) and never to the auto-execute branch (so
    execute mode is not entered from this proposal). -/
theorem C1_blocked_forces_confirmation (sem : RegexSem)
    (blockRaw confirmRaw allowRaw : List (List Char)) (allowAuto : Bool)
    (output : List Char) (parsed : ProposalResult) (policy : CommandPolicy)
    (hparse : parseProposal output = some parsed)
    (hpol : policy = evaluateCommandPolicy sem blockRaw confirmRaw allowRaw
      parsed.commands)
    (hblock : ∃ cmd ∈ parsed.commands,
      matchesAny sem cmd (compilePatterns sem blockRaw) = true) :
    policy.blocked = true ∧
    policy.blockedCommands ≠ [] ∧
    (∀ cmd ∈ policy.blockedCommands, cmd ∈ parsed.commands ∧
      matchesAny sem cmd (compilePatterns sem blockRaw) = true) ∧
    computeApprovalDecision parsed policy = true ∧
    resolveProposal sem blockRaw confirmRaw allowRaw allowAuto output =
      .blockedMessage policy.blockedCommands ∧
    (∀ s r, resolveProposal sem blockRaw confirmRaw allowRaw allowAuto output ≠
      .needsApprovalResp s r) ∧
    resolveProposal sem blockRaw confirmRaw allowRaw allowAuto output ≠
      .autoExecuted := by
  obtain ⟨cmd, hmem, hmatch⟩ := hblock
  have hmemf : cmd ∈ parsed.commands.filter
      (fun c => matchesAny sem c (compilePatterns sem blockRaw)) :=
    List.mem_filter.mpr ⟨hmem, hmatch⟩
  have hne : parsed.commands.filter
      (fun c => matchesAny sem c (compilePatterns sem blockRaw)) ≠ [] :=
    List.ne_nil_of_mem hmemf
  have hbcmds : policy.blockedCommands = parsed.commands.filter
      (fun c => matchesAny sem c (compilePatterns sem blockRaw)) := by
    rw [hpol]; rfl
  have hblocked : policy.blocked = true := by
    rw [hpol]
    show (!(parsed.commands.filter _).isEmpty) = true
    simpa [List.isEmpty_iff] using hne
  have hdec : computeApprovalDecision parsed policy = true := by
    unfold computeApprovalDecision
    rw [hblocked]
    rfl
  have hres : resolveProposal sem blockRaw confirmRaw allowRaw allowAuto output =
      .blockedMessage policy.blockedCommands := by
    unfold resolveProposal
    rw [hparse]
    simp only [← hpol, hblocked, if_pos]
  refine ⟨hblocked, ?_, ?_, hdec, hres, ?_, ?_⟩
  · rw [hbcmds]; exact hne
  · intro c hc
    rw [hbcmds] at hc
    exact ⟨(List.mem_filter.mp hc).1, (List.mem_filter.mp hc).2⟩
  · intro s r h
    rw [hres] at h
    exact ProposalOutcome.noConfusion h
  · intro h
    rw [hres] at h
    exact ProposalOutcome.noConfusion h

/-- Concrete instantiation of `C1_blocked_forces_confirmation`: a proposal
    whose only command is `rm -rf /`, evaluated with `rm` on the block list,
    resolves to the blocked-commands message. -/
theorem C1_blocked_forces_confirmation_witness :
    resolveProposal semDefault [("rm".data)] [] [] true
      ("NEEDS_APPROVAL: no\nCOMMANDS:\n- rm -rf /".data) =
      .blockedMessage [("rm -rf /".data)] := by
  have h := C1_blocked_forces_confirmation semDefault [("rm".data)] [] [] true
    ("NEEDS_APPROVAL: no\nCOMMANDS:\n- rm -rf /".data)
    { needsApproval := false, summary := [], response := [],
      commands := [("rm -rf /".data)], files := [] }
    (evaluateCommandPolicy semDefault [("rm".data)] [] [] [("rm -rf /".data)])
    (by decide) rfl ⟨("rm -rf /".data), by decide, by decide⟩
  exact h.2.2.2.2.1.trans (by decide)

/-! ## Claim C3 -/

/-- C3 is refuted for the cited safe-dir runner variant (part_001, lines
    236-240): its `computeApprovalDecision` ignores the agent's
    `needsApproval` flag and the proposal's file list.  With
    `blocked = false`, `autoExecute = false`, the agent requesting approval
    and a nonempty file list, the claimed biconditional demands a true
    decision, yet the variant returns false. -/
theorem C3_approval_decision_counterexample :
    ({ blocked := false, blockedCommands := [], needsApproval := false,
        autoExecute := false } : CommandPolicy).blocked = false ∧
    ({ blocked := false, blockedCommands := [], needsApproval := false,
        autoExecute := false } : CommandPolicy).autoExecute = false ∧
    ({ needsApproval := true, summary := [], response := [],
        commands := [], files := [("file.txt".data)] } :
      ProposalResult).needsApproval = true ∧
    ({ needsApproval := true, summary := [], response := [],
        commands := [], files := [("file.txt".data)] } :
      ProposalResult).files ≠ [] ∧
    computeApprovalDecisionSafe
      { needsApproval := true, summary := [], response := [],
        commands := [], files := [("file.txt".data)] }
      { blocked := false, blockedCommands := [], needsApproval := false,
        autoExecute := false } = false := by
  decide

/-- C3 (amended): with `blocked = false`, the runner.ts approval decision is
    true exactly when the policy's `autoExecute` flag is false and (the
    agent requested approval, or the policy independently requires it, or
    the proposal lists any file to modify); in particular a proposal listing
    a file requires approval whenever `autoExecute` is false.  The safe-dir
    variant (part_001) instead returns exactly the policy's `needsApproval`
    flag (the deletion-boundary verdict), ignoring the agent's flag and the
    file list. -/
theorem C3_approval_decision_amended (parsed : ProposalResult)
    (policy : CommandPolicy) (h : policy.blocked = false) :
    (computeApprovalDecision parsed policy = true ↔
      (policy.autoExecute = false ∧
        (parsed.needsApproval = true ∨ policy.needsApproval = true ∨
          parsed.files ≠ []))) ∧
    (parsed.files ≠ [] → policy.autoExecute = false →
      computeApprovalDecision parsed policy = true) ∧
    computeApprovalDecisionSafe parsed policy = policy.needsApproval := by
  have hmain : computeApprovalDecision parsed policy = true ↔
      (policy.autoExecute = false ∧
        (parsed.needsApproval = true ∨ policy.needsApproval = true ∨
          parsed.files ≠ [])) := by
    unfold computeApprovalDecision
    rw [h]
    cases hauto : policy.autoExecute <;>
      simp [List.isEmpty_iff, or_assoc]
  refine ⟨hmain, fun hf hauto => hmain.mpr ⟨hauto, Or.inr (Or.inr hf)⟩, ?_⟩
  unfold computeApprovalDecisionSafe
  rw [h]
  rfl

/-- Concrete instantiation of `C3_approval_decision_amended`: a proposal
    listing one file with the agent requesting approval, under a
    non-auto-executing unblocked policy, requires approval in runner.ts but
    not in the safe-dir variant. -/
theorem C3_approval_decision_amended_witness :
    computeApprovalDecision
      { needsApproval := true, summary := [], response := [],
        commands := [], files := [("a.txt".data)] }
      { blocked := false, blockedCommands := [], needsApproval := false,
        autoExecute := false } = true ∧
    computeApprovalDecisionSafe
      { needsApproval := true, summary := [], response := [],
        commands := [], files := [("a.txt".data)] }
      { blocked := false, blockedCommands := [], needsApproval := false,
        autoExecute := false } = false :=
  ⟨(C3_approval_decision_amended _ _ (by decide)).2.1 (by decide) (by decide),
   by rw [(C3_approval_decision_amended _ _ (by decide)).2.2]⟩

/-! ## Claim C7 -/

theorem scanNA_none_iff (s : List Char) :
    scanNA s = none ↔ ¬ HasNeedsApprovalLine s := by
  induction s with
  | nil =>
    constructor
    · intro _ h
      obtain ⟨i, _, hsome⟩ := h
      simp only [List.drop_nil] at hsome
      revert hsome
      decide
    · intro _
      decide
  | cons c t ih =>
    unfold scanNA HasNeedsApprovalLine
    cases hm : matchNA (c :: t) with
    | some b =>
      simp only
      constructor
      · intro h; exact absurd h (by simp)
      · intro h
        exact absurd (⟨0, by simp, by simp [hm]⟩ :
          ∃ i, i ≤ (c :: t).length ∧ (matchNA ((c :: t).drop i)).isSome) h
    | none =>
      simp only
      rw [ih]
      unfold HasNeedsApprovalLine
      constructor
      · intro h ⟨i, hi, hsome⟩
        match i, hi, hsome with
        | 0, _, hsome => simp [hm] at hsome
        | j + 1, hj, hsome =>
          exact h ⟨j, by simpa using hj, by simpa using hsome⟩
      · intro h ⟨i, hi, hsome⟩
        exact h ⟨i + 1, by simpa using hi, by simpa using hsome⟩

theorem scanLabel_none_iff (label s : List Char) :
    scanLabel label s = none ↔ ¬ HasLabel label s := by
  induction s with
  | nil =>
    show matchLabel label [] = none ↔ _
    constructor
    · intro h hex
      obtain ⟨i, _, hsome⟩ := hex
      simp only [List.drop_nil] at hsome
      rw [h] at hsome
      exact absurd hsome (by simp)
    · intro h
      cases hm : matchLabel label [] with
      | none => rfl
      | some r =>
        exact absurd (⟨0, by simp, by simp [hm]⟩ :
          ∃ i, i ≤ ([] : List Char).length ∧
            (matchLabel label (([] : List Char).drop i)).isSome) h
  | cons c t ih =>
    unfold scanLabel HasLabel
    cases hm : matchLabel label (c :: t) with
    | some r =>
      simp only
      constructor
      · intro h; exact absurd h (by simp)
      · intro h
        exact absurd (⟨0, by simp, by simp [hm]⟩ :
          ∃ i, i ≤ (c :: t).length ∧ (matchLabel label ((c :: t).drop i)).isSome) h
    | none =>
      simp only
      rw [ih]
      unfold HasLabel
      constructor
      · intro h ⟨i, hi, hsome⟩
        match i, hi, hsome with
        | 0, _, hsome => simp [hm] at hsome
        | j + 1, hj, hsome =>
          exact h ⟨j, by simpa using hj, by simpa using hsome⟩
      · intro h ⟨i, hi, hsome⟩
        exact h ⟨i + 1, by simpa using hi, by simpa using hsome⟩

theorem extractSection_of_no_label (label output : List Char)
    (h : ¬ HasLabel label output) : extractSection output label = [] := by
  unfold extractSection
  rw [(scanLabel_none_iff label output).mpr h]

/-- C7: `parseProposal` returns `none` exactly when the text contains no
    NEEDS_APPROVAL line with a yes/no value (under either colon form); when
    such a line exists a structured result is always returned, an absent
    SUMMARY/RESPONSE section yields the empty string, an absent
    COMMANDS/FILES section yields the empty list, and the caller degrades a
    `none` parse to a plain message carrying the whole trimmed output. -/
theorem C7_parse_null_iff_no_needs_approval (output : List Char) :
    (parseProposal output = none ↔ ¬ HasNeedsApprovalLine output) ∧
    (HasNeedsApprovalLine output → ∃ pr, parseProposal output = some pr) ∧
    (∀ pr, parseProposal output = some pr →
      (¬ HasLabel ("SUMMARY".data) output → pr.summary = []) ∧
      (¬ HasLabel ("RESPONSE".data) output → pr.response = []) ∧
      (¬ HasLabel ("COMMANDS".data) output → pr.commands = []) ∧
      (¬ HasLabel ("FILES".data) output → pr.files = [])) ∧
    (∀ (sem : RegexSem) (blockRaw confirmRaw allowRaw : List (List Char))
      (allowAuto : Bool), parseProposal output = none →
      resolveProposal sem blockRaw confirmRaw allowRaw allowAuto output =
        .unparsedMessage (trim output)) := by
  refine ⟨?_, ?_, ?_, ?_⟩
  · unfold parseProposal
    cases hs : scanNA output with
    | none => simpa using (scanNA_none_iff output).mp hs
    | some b =>
      simp only
      constructor
      · intro h; exact absurd h (by simp)
      · intro h
        have hnone := (scanNA_none_iff output).mpr h
        rw [hs] at hnone
        exact absurd hnone (by simp)
  · intro h
    unfold parseProposal
    cases hs : scanNA output with
    | none => exact absurd h ((scanNA_none_iff output).mp hs)
    | some b => exact ⟨_, rfl⟩
  · intro pr hpr
    unfold parseProposal at hpr
    cases hs : scanNA output with
    | none => rw [hs] at hpr; exact absurd hpr (by simp)
    | some b =>
      rw [hs] at hpr
      simp only [Option.some.injEq] at hpr
      subst hpr
      refine ⟨?_, ?_, ?_, ?_⟩ <;> intro h <;>
        simp [extractSection_of_no_label _ _ h, parseListSection]
  · intro sem blockRaw confirmRaw allowRaw allowAuto h
    unfold resolveProposal
    rw [h]

/-- Concrete instantiation of `C7_parse_null_iff_no_needs_approval`: a text
    without the NEEDS_APPROVAL line parses to `none`, and a bare
    `NEEDS_APPROVAL: yes` line parses with empty summary/response and empty
    command/file lists. -/
theorem C7_parse_null_iff_no_needs_approval_witness :
    parseProposal ("hello world".data) = none ∧
    parseProposal ("NEEDS_APPROVAL: yes".data) =
      some { needsApproval := true, summary := [], response := [],
             commands := [], files := [] } ∧
    resolveProposal semDefault [] [] [] true ("hello world".data) =
      .unparsedMessage (trim ("hello world".data)) := by
  refine ⟨?_, by decide, ?_⟩
  · exact (C7_parse_null_iff_no_needs_approval ("hello world".data)).1.mpr
      (by decide)
  · exact (C7_parse_null_iff_no_needs_approval
      ("hello world".data)).2.2.2 semDefault [] [] [] true (by decide)

/-! ## Claim C2 -/

/-- C2: in the safe-dir policy variant, extracted `rm` targets are resolved
    against the workspace directory and tested as
    exact-match-or-proper-descendant of a safe root in a path-separator-aware
    way (`/safe2` is not under `/safe`); with safe roots `["/work"]` and
    workspace `/work/proj`, `rm /work/proj/a.txt` needs no approval on the
    deletion basis while `rm /etc/passwd` sets `needsApproval = true`; and
    any target containing a backtick or `$` is always treated as outside the
    safe roots, regardless of the configured roots. -/
theorem C2_safe_dir_deletion_boundary :
    (∀ (home target workspaceDir : List Char) (safeRoots : List (List Char)),
      target.any (fun c => c = '`' || c = '$') = true →
      isOutsideSafeRoots home target workspaceDir safeRoots = true) ∧
    extractRmTargets ("rm /work/proj/a.txt".data) =
      [("/work/proj/a.txt".data)] ∧
    resolveTargetPath ("/home/u".data) ("/work/proj".data) ("a.txt".data) =
      ("/work/proj/a.txt".data) ∧
    isSubPath ("/safe2".data) ("/safe".data) = false ∧
    isSubPath ("/safe/sub".data) ("/safe".data) = true ∧
    isSubPath ("/safe".data) ("/safe".data) = true ∧
    deletesOutsideSafeDirs [("/work".data)] [] ("/home/u".data)
      ("rm /work/proj/a.txt".data) ("/work/proj".data) = false ∧
    (evaluateCommandPolicySafe semDefault [] [("/work".data)] []
      ("/home/u".data) [("rm /work/proj/a.txt".data)]
      ("/work/proj".data)).needsApproval = false ∧
    deletesOutsideSafeDirs [("/work".data)] [] ("/home/u".data)
      ("rm /etc/passwd".data) ("/work/proj".data) = true ∧
    (evaluateCommandPolicySafe semDefault [] [("/work".data)] []
      ("/home/u".data) [("rm /etc/passwd".data)]
      ("/work/proj".data)).needsApproval = true ∧
    deletesOutsideSafeDirs [("/work".data)] [] ("/home/u".data)
      ("rm $(cat f)".data) ("/work/proj".data) = true := by
  have hx1 : extractRmTargets ("rm /work/proj/a.txt".data) =
      [("/work/proj/a.txt".data)] := by
    rw [extractRmTargets]; decide
  have hx2 : extractRmTargets ("rm /etc/passwd".data) =
      [("/etc/passwd".data)] := by
    rw [extractRmTargets]; decide
  have hx3 : extractRmTargets ("rm $(cat f)".data) =
      [("$(cat".data), ("f)".data)] := by
    rw [extractRmTargets]; decide
  have hd1 : deletesOutsideSafeDirs [("/work".data)] [] ("/home/u".data)
      ("rm /work/proj/a.txt".data) ("/work/proj".data) = false := by
    simp only [deletesOutsideSafeDirs, hx1]
    decide
  have hd2 : deletesOutsideSafeDirs [("/work".data)] [] ("/home/u".data)
      ("rm /etc/passwd".data) ("/work/proj".data) = true := by
    simp only [deletesOutsideSafeDirs, hx2]
    decide
  have hd3 : deletesOutsideSafeDirs [("/work".data)] [] ("/home/u".data)
      ("rm $(cat f)".data) ("/work/proj".data) = true := by
    simp only [deletesOutsideSafeDirs, hx3]
    decide
  refine ⟨?_, hx1, by decide, by decide, by decide, by decide, hd1, ?_, hd2,
    ?_, hd3⟩
  · intro home target workspaceDir safeRoots h
    unfold isOutsideSafeRoots
    rw [if_neg, if_pos h]
    rintro (rfl | rfl)
    · exact absurd h (by decide)
    · exact absurd h (by decide)
  · simp only [evaluateCommandPolicySafe, List.any_cons, List.any_nil,
      Bool.or_false, hd1]
  · simp only [evaluateCommandPolicySafe, List.any_cons, List.any_nil,
      Bool.or_false, hd2]

/-- Concrete instantiation of the universal clause of
    `C2_safe_dir_deletion_boundary`: a target containing `$` is outside the
    safe roots even when the roots would otherwise contain it. -/
theorem C2_safe_dir_deletion_boundary_witness :
    isOutsideSafeRoots ("/home/u".data) ("$(cat f)".data) ("/work/proj".data)
      [("/work".data)] = true :=
  (C2_safe_dir_deletion_boundary).1 ("/home/u".data) ("$(cat f)".data)
    ("/work/proj".data) [("/work".data)] (by decide)

/-! ## Claim C10 -/

/-- C10: the `/dir set` flow adds the resolved target directory to the
    persistent safe-dir list before running the path-allowed check, so the
    check always succeeds — the "directory outside safe range" rejection
    branch is unreachable — and the named directory becomes a safe root for
    all later checks. -/
theorem C10_dir_set_check_unreachable (safeDirsCfg store : List (List Char))
    (home baseDir rawPath : List Char) :
    (handleDirSetStep safeDirsCfg store home baseDir rawPath).2.2 = true ∧
    (handleDirSetStep safeDirsCfg store home baseDir rawPath).2.1 ∈
      getAllowedDirs safeDirsCfg
        (handleDirSetStep safeDirsCfg store home baseDir rawPath).1 := by
  have key : ∀ ws : List Char,
      isPathAllowed safeDirsCfg (addSafeDir store ws) ws = true ∧
      ws ∈ getAllowedDirs safeDirsCfg (addSafeDir store ws) := by
    intro ws
    have hmem : ws ∈ getAllowedDirs safeDirsCfg (addSafeDir store ws) := by
      simp [getAllowedDirs, addSafeDir]
    refine ⟨?_, hmem⟩
    simp only [isPathAllowed]
    rw [if_neg (List.ne_nil_of_mem hmem)]
    refine List.any_eq_true.mpr ⟨ws, hmem, ?_⟩
    simp
  exact ⟨(key _).1, (key _).2⟩

/-! ## Claim C5 -/

/-- C5 is refuted for the cited safe-dir runner variant (part_001, lines
    54-77): its proposal-mode invocation passes `-s workspace-write`, a
    write-to-workspace capability, and no read-only flag at all. -/
theorem C5_cli_invocation_counterexample :
    ("workspace-write".data) ∈
      buildCliArgsSafe none .proposal ("/w".data) ("o.txt".data) none ∧
    ¬ ("read-only".data) ∈
      buildCliArgsSafe none .proposal ("/w".data) ("o.txt".data) none := by
  decide

/-- C5 (amended): the runner.ts CLI invocation passes `-s read-only` in
    proposal mode and `--full-auto` in execute mode, always passes the
    explicit working directory after `-C` and the output-capture file after
    `-o`, and appends `resume <id>` exactly when a session id is known; the
    safe-dir variant (part_001) instead passes `-s workspace-write` in
    proposal mode and `--full-auto` in execute mode. -/
theorem C5_cli_invocation_amended (modelOverride : Option (List Char))
    (mode : CodexRunMode) (ws out : List Char)
    (resumeSid : Option (List Char)) :
    (mode = .proposal → ∃ a b,
      buildCliArgs modelOverride mode ws out resumeSid =
        a ++ [("-s".data), ("read-only".data)] ++ b) ∧
    (mode = .execute →
      ("--full-auto".data) ∈ buildCliArgs modelOverride mode ws out resumeSid) ∧
    (∃ a b, buildCliArgs modelOverride mode ws out resumeSid =
      a ++ [("-C".data), ws] ++ b) ∧
    (∃ a b, buildCliArgs modelOverride mode ws out resumeSid =
      a ++ [("-o".data), out] ++ b) ∧
    (∀ sid, resumeSid = some sid → ∃ a,
      buildCliArgs modelOverride mode ws out resumeSid =
        a ++ [("resume".data), sid]) ∧
    (mode = .proposal → ∃ a b,
      buildCliArgsSafe modelOverride mode ws out resumeSid =
        a ++ [("-s".data), ("workspace-write".data)] ++ b) ∧
    (mode = .execute →
      ("--full-auto".data) ∈
        buildCliArgsSafe modelOverride mode ws out resumeSid) := by
  refine ⟨?_, ?_, ?_, ?_, ?_, ?_, ?_⟩
  · rintro rfl
    refine ⟨[("exec".data), ("--skip-git-repo-check".data), ("-C".data), ws,
      ("--color".data), ("never".data), ("-o".data), out] ++
      (match modelOverride with
       | some m => [("-m".data), m]
       | none => []),
      (match resumeSid with
       | some sid => [("resume".data), sid]
       | none => []), ?_⟩
    simp [buildCliArgs]
  · rintro rfl
    simp [buildCliArgs]
  · refine ⟨[("exec".data), ("--skip-git-repo-check".data)],
      [("--color".data), ("never".data), ("-o".data), out] ++
      (match modelOverride with
       | some m => [("-m".data), m]
       | none => []) ++
      (match mode with
       | .proposal => [("-s".data), ("read-only".data)]
       | .execute => [("--full-auto".data)]) ++
      (match resumeSid with
       | some sid => [("resume".data), sid]
       | none => []), ?_⟩
    simp [buildCliArgs]
  · refine ⟨[("exec".data), ("--skip-git-repo-check".data), ("-C".data), ws,
      ("--color".data), ("never".data)],
      (match modelOverride with
       | some m => [("-m".data), m]
       | none => []) ++
      (match mode with
       | .proposal => [("-s".data), ("read-only".data)]
       | .execute => [("--full-auto".data)]) ++
      (match resumeSid with
       | some sid => [("resume".data), sid]
       | none => []), ?_⟩
    simp [buildCliArgs]
  · rintro sid rfl
    refine ⟨[("exec".data), ("--skip-git-repo-check".data), ("-C".data), ws,
      ("--color".data), ("never".data), ("-o".data), out] ++
      (match modelOverride with
       | some m => [("-m".data), m]
       | none => []) ++
      (match mode with
       | .proposal => [("-s".data), ("read-only".data)]
       | .execute => [("--full-auto".data)]), ?_⟩
    simp [buildCliArgs]
  · rintro rfl
    refine ⟨[("exec".data), ("--skip-git-repo-check".data), ("-C".data), ws,
      ("--color".data), ("never".data), ("-o".data), out] ++
      (match modelOverride with
       | some m => [("-m".data), m]
       | none => []),
      (match resumeSid with
       | some sid => [("resume".data), sid]
       | none => []), ?_⟩
    simp [buildCliArgsSafe]
  · rintro rfl
    simp [buildCliArgsSafe]

/-- Concrete instantiation of `C5_cli_invocation_amended`: a proposal-mode
    invocation with a known session id carries `-s read-only` and ends with
    the resume directive in runner.ts, while the safe-dir variant carries
    `-s workspace-write`. -/
theorem C5_cli_invocation_amended_witness :
    (∃ a b, buildCliArgs none .proposal ("/w".data) ("o.txt".data)
      (some ("sid1".data)) = a ++ [("-s".data), ("read-only".data)] ++ b) ∧
    (∃ a, buildCliArgs none .proposal ("/w".data) ("o.txt".data)
      (some ("sid1".data)) = a ++ [("resume".data), ("sid1".data)]) ∧
    (∃ a b, buildCliArgsSafe none .proposal ("/w".data) ("o.txt".data)
      (some ("sid1".data)) =
        a ++ [("-s".data), ("workspace-write".data)] ++ b) :=
  ⟨(C5_cli_invocation_amended none .proposal ("/w".data) ("o.txt".data)
      (some ("sid1".data))).1 rfl,
   (C5_cli_invocation_amended none .proposal ("/w".data) ("o.txt".data)
      (some ("sid1".data))).2.2.2.2.1 ("sid1".data) rfl,
   (C5_cli_invocation_amended none .proposal ("/w".data) ("o.txt".data)
      (some ("sid1".data))).2.2.2.2.2.1 rfl⟩

/-! ## Claim C4 -/

theorem lowerL_head (t : List Char) : (lowerL t).head? = t.head?.map lowerC := by
  cases t <;> simp [lowerL]

theorem decide_list_ne_of_head (l X : List Char) (h : l.head? ≠ X.head?) :
    decide (l = X) = false := by
  simp only [decide_eq_false_iff_not]
  intro he
  rw [he] at h
  exact h rfl

theorem rejectPhrase_false_of_lower_head_slash (t : List Char)
    (hl : (lowerL t).head? = some '/') : rejectPhrase t = false := by
  unfold rejectPhrase
  rw [decide_list_ne_of_head _ _ (by rw [hl]; decide),
    decide_list_ne_of_head _ _ (by rw [hl]; decide),
    decide_list_ne_of_head _ _ (by rw [hl]; decide),
    decide_list_ne_of_head _ _ (by rw [hl]; decide),
    decide_list_ne_of_head _ _ (by rw [hl]; decide)]
  rfl

theorem leadsWith_head (p : Char) (ps l : List Char)
    (h : leadsWith (p :: ps) l = true) : l.head? = some p := by
  cases l with
  | nil => exact absurd h (by simp [leadsWith])
  | cons c r =>
    simp only [leadsWith, Bool.and_eq_true, decide_eq_true_eq] at h
    simp [h.1]

theorem isConfirmCmdSignal_head (lower : List Char)
    (h : isConfirmCmdSignal lower = true) : lower.head? = some '/' := by
  unfold isConfirmCmdSignal at h
  simp only [Bool.or_eq_true, decide_eq_true_eq] at h
  rcases h with ((h | h) | h) | h
  · rw [h]; rfl
  · rw [h]; rfl
  · exact leadsWith_head _ _ _ h
  · exact leadsWith_head _ _ _ h

theorem rejectPhrase_false_of_confirmPhrase (t : List Char)
    (h : confirmPhrase t = true) : rejectPhrase t = false := by
  unfold confirmPhrase at h
  simp only [Bool.or_eq_true, decide_eq_true_eq] at h
  unfold rejectPhrase
  rcases h with ((((h | h) | h) | h) | h) | h <;> rw [h] <;> decide

/-- C4 counterexample: the inbound message `/exit` is neither a reject
    command nor a natural-language negative nor a confirm signal under the
    claim's categories, yet the pending-approval branch does not re-prompt
    on it — it marks the record rejected (and clears the plugin state), so
    the claim's "any other message leaves the record pending and re-prompts"
    clause fails at `/exit`. -/
theorem C4_pending_priority_counterexample :
    claimRejectSignal ("/exit".data) = false ∧
    claimConfirmSignal ("/exit".data) = false ∧
    resolvePendingMessage ("/exit".data) = .rejectedExitPlugin ∧
    resolvePendingMessage ("/exit".data) ≠ .reprompt := by
  decide

/-- C4 (amended): with a pending approval, the router resolves an inbound
    message in priority order — a reject command or natural-language
    negative marks the record rejected with a cancellation notice and no
    agent invocation; otherwise the plugin-exit command (`/` + `exit`) also
    marks it rejected while clearing the plugin state; otherwise a confirm
    command or natural-language affirmative marks it approved and re-invokes
    the agent in execute mode on the persisted payload; any other message
    leaves the record pending and re-prompts.  In particular `取消`
    transitions the record to rejected with no agent invocation, and `确认`
    to approved. -/
theorem C4_pending_priority_amended :
    (∀ message : List Char,
      resolvePendingMessage message = claimPendingOutcome message) ∧
    resolvePendingMessage ("取消".data) = .rejectedNotice ∧
    resolvePendingMessage ("确认".data) = .approvedExecute := by
  refine ⟨?_, by decide, by decide⟩
  intro message
  unfold resolvePendingMessage claimPendingOutcome claimRejectSignal
    claimConfirmSignal
  by_cases h1 : isRejectCmdSignal (lowerL (trim message)) = true
  · simp [h1]
  · rw [Bool.not_eq_true] at h1
    by_cases h2 : isExitCmd (trim message) = true
    · have hslash : (trim message).head? = some '/' := by
        unfold isExitCmd at h2
        simp only [Bool.and_eq_true, decide_eq_true_eq] at h2
        exact h2.1
      have hrj := rejectPhrase_false_of_lower_head_slash (trim message)
        (by rw [lowerL_head, hslash]; decide)
      simp [h1, h2, hrj]
    · rw [Bool.not_eq_true] at h2
      by_cases h3 : (isConfirmCmdSignal (lowerL (trim message)) ||
          confirmPhrase (trim message)) = true
      · have hrj : rejectPhrase (trim message) = false := by
          rcases Bool.or_eq_true _ _ |>.mp h3 with hc | hc
          · exact rejectPhrase_false_of_lower_head_slash (trim message)
              (isConfirmCmdSignal_head _ hc)
          · exact rejectPhrase_false_of_confirmPhrase _ hc
        simp [h1, h2, h3, hrj]
      · rw [Bool.not_eq_true] at h3
        by_cases h4 : rejectPhrase (trim message) = true
        · simp [h1, h2, h3, h4]
        · rw [Bool.not_eq_true] at h4
          simp [h1, h2, h3, h4]

/-! ## Claim C9: region lemmas

    The serialized proposal alternates concrete skeleton text with abstract
    field regions.  The lemmas below show that the three scans of the parser
    (the label scan, the next-section-marker search, and the line splitter)
    cannot fire inside a colon-free region, and step across such regions
    unchanged. -/

theorem noColonB_cons (c : Char) (l : List Char) (h : noColonB (c :: l) = true) :
    isColon c = false ∧ noColonB l = true := by
  unfold noColonB at h
  simp only [List.all_cons, Bool.and_eq_true, Bool.not_eq_true'] at h
  exact ⟨h.1, h.2⟩

theorem noColonB_dropWhile (q : Char → Bool) (l : List Char)
    (h : noColonB l = true) : noColonB (l.dropWhile q) = true := by
  induction l with
  | nil => exact h
  | cons c l' ih =>
    obtain ⟨h1, h2⟩ := noColonB_cons c l' h
    by_cases hq : q c = true
    · rw [List.dropWhile_cons_of_pos hq]
      exact ih h2
    · rw [List.dropWhile_cons_of_neg (by simp [hq])]
      unfold noColonB
      simp only [List.all_cons, Bool.and_eq_true, Bool.not_eq_true']
      exact ⟨h1, h2⟩

theorem noColonB_drop (n : Nat) (l : List Char) (h : noColonB l = true) :
    noColonB (l.drop n) = true := by
  induction n generalizing l with
  | zero => exact h
  | succ m ih =>
    cases l with
    | nil => exact h
    | cons c l' => exact ih l' (noColonB_cons c l' h).2

theorem headIsColon_dropWs_region (v rest : List Char)
    (hv : noColonB v = true) (hrest : RestShape rest) :
    headIsColon ((v ++ rest).dropWhile isWs) = false := by
  induction v with
  | nil =>
    rcases hrest with rfl | ⟨b, rr, rfl, hb1, hb2⟩
    · rfl
    · rw [List.nil_append,
        List.dropWhile_cons_of_pos (by decide : isWs '\n' = true),
        List.dropWhile_cons_of_neg (by simp [hb1])]
      simp [headIsColon, hb2]
  | cons c v' ih =>
    obtain ⟨hc, hv'⟩ := noColonB_cons c v' hv
    by_cases hcw : isWs c = true
    · rw [List.cons_append, List.dropWhile_cons_of_pos hcw]
      exact ih hv'
    · rw [List.cons_append, List.dropWhile_cons_of_neg (by simp [hcw])]
      simp [headIsColon, hc]

theorem markerAt_false_region (c : Char) (u' rest : List Char)
    (hu : noColonB (c :: u') = true) (hrest : RestShape rest) :
    markerAt ((c :: u') ++ rest) = false := by
  obtain ⟨hc, hu'⟩ := noColonB_cons c u' hu
  by_cases hnl : c = '\n'
  · subst hnl
    show markerAt ('\n' :: (u' ++ rest)) = false
    have key : headIsColon (((u' ++ rest).dropWhile isLabelChar).dropWhile isWs)
        = false := by
      rw [List.dropWhile_append]
      by_cases he : (u'.dropWhile isLabelChar).isEmpty = true
      · rw [if_pos he]
        rcases hrest with rfl | ⟨b, rr, rfl, hb1, hb2⟩
        · rfl
        · rw [List.dropWhile_cons_of_neg (by decide)]
          exact headIsColon_dropWs_region [] ('\n' :: b :: rr) rfl
            (Or.inr ⟨b, rr, rfl, hb1, hb2⟩)
      · rw [if_neg he]
        exact headIsColon_dropWs_region (u'.dropWhile isLabelChar) rest
          (noColonB_dropWhile _ _ hu') hrest
    unfold markerAt
    simp [key]
  · unfold markerAt
    split
    · next heq =>
      rw [List.cons_append] at heq
      injection heq with h1 _
      exact absurd h1 hnl
    · rfl

theorem markerSearch_append (s rest : List Char)
    (hs : noColonB s = true) (hrest : RestShape rest) :
    markerSearch (s ++ rest) = (markerSearch rest).map (· + s.length) := by
  induction s with
  | nil =>
    rw [List.nil_append]
    cases markerSearch rest <;> simp
  | cons c s' ih =>
    obtain ⟨hc, hs'⟩ := noColonB_cons c s' hs
    have hm := markerAt_false_region c s' rest hs hrest
    rw [List.cons_append] at hm
    rw [List.cons_append, markerSearch, if_neg (by simp [hm]), ih hs']
    cases markerSearch rest <;> simp <;> omega

theorem ciLeads_le_of_append (label u rest : List Char)
    (hlab : label.all (fun ch => !(lowerC ch = '\n')) = true)
    (hr : rest.head? = some '\n')
    (h : ciLeads label (u ++ rest) = true) :
    label.length ≤ u.length := by
  by_contra hlt
  push_neg at hlt
  rw [ciLeads_iff] at h
  obtain ⟨hlen, heq⟩ := h
  have h1 : ((u ++ rest).take label.length)[u.length]? = some '\n' := by
    rw [List.getElem?_take, if_pos hlt,
      List.getElem?_append_right (Nat.le_refl _), Nat.sub_self,
      ← List.head?_eq_getElem?, hr]
  have h2 : (lowerL ((u ++ rest).take label.length))[u.length]? = some '\n' := by
    unfold lowerL
    rw [List.getElem?_map, h1]
    rfl
  rw [heq] at h2
  unfold lowerL at h2
  rw [List.getElem?_map] at h2
  cases hl : label[u.length]? with
  | none => rw [hl] at h2; exact absurd h2 (by simp)
  | some ch =>
    rw [hl] at h2
    simp only [Option.map_some', Option.some.injEq] at h2
    have hmem : ch ∈ label := List.getElem?_mem hl
    have := List.all_eq_true.mp hlab ch hmem
    rw [h2] at this
    exact absurd this (by simp)

theorem matchLabel_none_region (label : List Char) (c : Char)
    (u' rest : List Char)
    (hlab : label.all (fun ch => !(lowerC ch = '\n')) = true)
    (hu : noColonB (c :: u') = true)
    (hrest : ∃ b rr, rest = '\n' :: b :: rr ∧ isWs b = false ∧
      isColon b = false) :
    matchLabel label ((c :: u') ++ rest) = none := by
  unfold matchLabel
  by_cases hci : ciLeads label ((c :: u') ++ rest) = true
  · rw [if_pos hci]
    have hhead : rest.head? = some '\n' := by
      obtain ⟨b, rr, rfl, _, _⟩ := hrest
      rfl
    have hle := ciLeads_le_of_append label (c :: u') rest hlab hhead hci
    rw [List.drop_append_of_le_length hle]
    have key := headIsColon_dropWs_region ((c :: u').drop label.length) rest
      (noColonB_drop _ _ hu) (Or.inr hrest)
    cases hX : (((c :: u').drop label.length ++ rest).dropWhile isWs) with
    | nil => rfl
    | cons d r2 =>
      rw [hX] at key
      unfold headIsColon at key
      simp only [List.head?_cons] at key
      show (if isColon d = true then some r2 else none) = none
      simp [key]
  · rw [if_neg hci]

theorem scanLabel_append (label s rest : List Char)
    (hlab : label.all (fun ch => !(lowerC ch = '\n')) = true)
    (hs : noColonB s = true)
    (hrest : ∃ b rr, rest = '\n' :: b :: rr ∧ isWs b = false ∧
      isColon b = false) :
    scanLabel label (s ++ rest) = scanLabel label rest := by
  induction s with
  | nil => rfl
  | cons c s' ih =>
    obtain ⟨hc, hs'⟩ := noColonB_cons c s' hs
    rw [List.cons_append, scanLabel]
    have hm := matchLabel_none_region label c s' rest hlab hs hrest
    rw [List.cons_append] at hm
    rw [hm]
    exact ih hs'

/-! ## Claim C9: trim, bullet and line-split lemmas -/

theorem trim_eq_of_stable (s : List Char) (h1 : trimL s = s) (h2 : trimR s = s) :
    trim s = s := by
  unfold trim
  rw [h1, h2]

theorem trim_cons_ws (c : Char) (s : List Char) (hc : isWs c = true)
    (h1 : trimL s = s) (h2 : trimR s = s) : trim (c :: s) = s := by
  unfold trim trimL
  rw [List.dropWhile_cons_of_pos hc]
  unfold trimL at h1
  rw [h1, h2]

theorem head_not_ws_of_trimL (s : List Char) (h : trimL s = s) :
    ∀ c t, s = c :: t → isWs c = false := by
  intro c t hs
  subst hs
  unfold trimL at h
  by_cases hc : isWs c = true
  · rw [List.dropWhile_cons_of_pos hc] at h
    have := congrArg List.length h
    have hle := (List.dropWhile_sublist (l := t) isWs).length_le
    simp at this
    omega
  · simpa using hc

theorem trimL_append_of (x a : List Char) (hx : trimL x = x) (hne : x ≠ []) :
    trimL (x ++ a) = x ++ a := by
  cases x with
  | nil => exact absurd rfl hne
  | cons c t =>
    have hc := head_not_ws_of_trimL _ hx c t rfl
    unfold trimL
    rw [List.cons_append, List.dropWhile_cons_of_neg (by simp [hc])]

theorem trimR_append_of (x a : List Char) (hx : trimR x = x) (hne : x ≠ []) :
    trimR (a ++ x) = a ++ x := by
  have hrev : (x.reverse.dropWhile isWs) = x.reverse := by
    unfold trimR at hx
    have := congrArg List.reverse hx
    simpa using this
  have hne' : x.reverse ≠ [] := by simpa using hne
  cases hxr : x.reverse with
  | nil => exact absurd hxr hne'
  | cons c t =>
    have hc : isWs c = false := by
      rw [hxr] at hrev
      by_cases h : isWs c = true
      · rw [List.dropWhile_cons_of_pos h] at hrev
        have := congrArg List.length hrev
        have hle := (List.dropWhile_sublist (l := t) isWs).length_le
        simp at this
        omega
      · simpa using h
    unfold trimR
    rw [List.reverse_append, hxr, List.cons_append,
      List.dropWhile_cons_of_neg (by simp [hc]), ← List.cons_append, ← hxr]
    simp

theorem itemOk_spec (x : List Char) (h : itemOk x = true) :
    x ≠ [] ∧ noColonB x = true ∧ noNewlineB x = true ∧ trimL x = x ∧
      trimR x = x ∧ lowerL x ≠ ("none".data) := by
  unfold itemOk at h
  simp only [Bool.and_eq_true, decide_eq_true_eq] at h
  exact ⟨h.1.1.1.1.1, h.1.1.1.1.2, h.1.1.1.2, h.1.1.2, h.1.2, h.2⟩

theorem noColonB_append (a b : List Char) :
    noColonB (a ++ b) = (noColonB a && noColonB b) := by
  simp [noColonB, List.all_append]

theorem noNewlineB_append (a b : List Char) :
    noNewlineB (a ++ b) = (noNewlineB a && noNewlineB b) := by
  simp [noNewlineB, List.all_append]

theorem noColonB_bulletCore : ∀ xs : List (List Char), xs.all itemOk = true →
    noColonB (bulletCore xs) = true
  | [], _ => by decide
  | [x], h => by
    have hx := itemOk_spec x (by simpa using h)
    show noColonB (("- ".data) ++ x) = true
    rw [noColonB_append, hx.2.1]
    decide
  | x :: y :: ys, h => by
    have hall : (y :: ys).all itemOk = true := by
      simp only [List.all_cons, Bool.and_eq_true] at h ⊢
      exact ⟨h.2.1, h.2.2⟩
    have hx := itemOk_spec x (by
      simp only [List.all_cons, Bool.and_eq_true] at h
      exact h.1)
    have hrec := noColonB_bulletCore (y :: ys) hall
    show noColonB ((("- ".data) ++ x) ++ ('\n' :: bulletCore (y :: ys))) = true
    rw [noColonB_append, noColonB_append, hx.2.1]
    have hcons : noColonB ('\n' :: bulletCore (y :: ys)) = true := by
      unfold noColonB at hrec ⊢
      rw [List.all_cons, hrec]
      decide
    rw [hcons]
    decide

theorem bulletCore_stable : ∀ xs : List (List Char), xs.all itemOk = true →
    trimL (bulletCore xs) = bulletCore xs ∧
      trimR (bulletCore xs) = bulletCore xs
  | [], _ => by decide
  | [x], h => by
    have hx := itemOk_spec x (by simpa using h)
    constructor
    · show trimL (('-') :: (' ' :: x)) = ('-') :: (' ' :: x)
      unfold trimL
      rw [List.dropWhile_cons_of_neg (by decide)]
    · show trimR (("- ".data) ++ x) = ("- ".data) ++ x
      exact trimR_append_of x _ hx.2.2.2.2.1 hx.1
  | x :: y :: ys, h => by
    have hall : (y :: ys).all itemOk = true := by
      simp only [List.all_cons, Bool.and_eq_true] at h ⊢
      exact ⟨h.2.1, h.2.2⟩
    have hrec := bulletCore_stable (y :: ys) hall
    have hne : bulletCore (y :: ys) ≠ [] := by
      cases ys <;> simp [bulletCore]
    have hshape : bulletCore (x :: y :: ys) =
        (("- ".data) ++ x ++ ['\n']) ++ bulletCore (y :: ys) := by
      show ("- ".data) ++ x ++ '\n' :: bulletCore (y :: ys) = _
      simp [List.append_assoc]
    constructor
    · show trimL (('-') :: (' ' :: (x ++ '\n' :: bulletCore (y :: ys)))) =
        bulletCore (x :: y :: ys)
      unfold trimL
      rw [List.dropWhile_cons_of_neg (by decide)]
      rfl
    · rw [hshape, trimR_append_of _ _ hrec.2 hne]

theorem splitLines_cons_generic (c : Char) (t : List Char) (h1 : c ≠ '\n')
    (h2 : c ≠ '\r') :
    splitLines (c :: t) =
      match splitLines t with
      | l :: ls => (c :: l) :: ls
      | [] => [[c]] := by
  rw [splitLines.eq_def]
  split
  · next heq => exact absurd heq (by simp)
  · next t' heq =>
    injection heq with ha _
    exact absurd ha h2
  · next t' heq =>
    injection heq with ha _
    exact absurd ha h1
  · next x1 c' t' hc1 hc2 heq =>
    injection heq with ha hb
    subst ha
    subst hb
    rfl

theorem splitLines_of_no_newline (a : List Char) (ha : noNewlineB a = true) :
    splitLines a = [a] := by
  induction a with
  | nil => rfl
  | cons c a' ih =>
    have hc : ¬(c = '\n') ∧ ¬(c = '\r') := by
      unfold noNewlineB at ha
      simp only [List.all_cons, Bool.and_eq_true] at ha
      have := ha.1
      simp only [Bool.and_eq_true, Bool.not_eq_true', decide_eq_false_iff_not]
        at this
      exact this
    have ha' : noNewlineB a' = true := by
      unfold noNewlineB at ha ⊢
      simp only [List.all_cons, Bool.and_eq_true] at ha
      exact ha.2
    rw [splitLines_cons_generic c a' hc.1 hc.2, ih ha']

theorem splitLines_append_newline (a b : List Char)
    (ha : noNewlineB a = true) :
    splitLines (a ++ '\n' :: b) = a :: splitLines b := by
  induction a with
  | nil => rfl
  | cons c a' ih =>
    have hc : ¬(c = '\n') ∧ ¬(c = '\r') := by
      unfold noNewlineB at ha
      simp only [List.all_cons, Bool.and_eq_true] at ha
      have := ha.1
      simp only [Bool.and_eq_true, Bool.not_eq_true', decide_eq_false_iff_not]
        at this
      exact this
    have ha' : noNewlineB a' = true := by
      unfold noNewlineB at ha ⊢
      simp only [List.all_cons, Bool.and_eq_true] at ha
      exact ha.2
    rw [List.cons_append, splitLines_cons_generic c _ hc.1 hc.2, ih ha']

theorem stripBullet_bullet (x : List Char) (h1 : trimL x = x)
    (h2 : trimR x = x) : stripBullet (("- ".data) ++ x) = x := by
  show trim (x.dropWhile isWs) = x
  unfold trimL at h1
  rw [h1]
  unfold trim trimL
  rw [h1, h2]

theorem splitLines_bulletCore : ∀ (x : List Char) (xs : List (List Char)),
    (x :: xs).all itemOk = true →
    splitLines (bulletCore (x :: xs)) =
      (x :: xs).map (fun i => ("- ".data) ++ i)
  | x, [], h => by
    have hx := itemOk_spec x (by simpa using h)
    show splitLines (("- ".data) ++ x) = [("- ".data) ++ x]
    apply splitLines_of_no_newline
    rw [noNewlineB_append, hx.2.2.1]
    decide
  | x, y :: ys, h => by
    have hx := itemOk_spec x (by
      simp only [List.all_cons, Bool.and_eq_true] at h
      exact h.1)
    have hall : (y :: ys).all itemOk = true := by
      simp only [List.all_cons, Bool.and_eq_true] at h ⊢
      exact ⟨h.2.1, h.2.2⟩
    show splitLines ((("- ".data) ++ x) ++ '\n' :: bulletCore (y :: ys)) = _
    rw [splitLines_append_newline _ _ (by
      rw [noNewlineB_append, hx.2.2.1]; decide)]
    rw [splitLines_bulletCore y ys hall]
    rfl

theorem map_stripBullet_items : ∀ xs : List (List Char), xs.all itemOk = true →
    (xs.map (fun i => ("- ".data) ++ i)).map stripBullet = xs
  | [], _ => rfl
  | x :: xs, h => by
    have hx := itemOk_spec x (by
      simp only [List.all_cons, Bool.and_eq_true] at h
      exact h.1)
    have hall : xs.all itemOk = true := by
      simp only [List.all_cons, Bool.and_eq_true] at h
      exact h.2
    simp only [List.map_cons]
    rw [stripBullet_bullet x hx.2.2.2.1 hx.2.2.2.2.1,
      map_stripBullet_items xs hall]

theorem parseListSection_bulletCore : ∀ xs : List (List Char),
    xs.all itemOk = true → parseListSection (bulletCore xs) = xs
  | [], _ => by decide
  | x :: xs, h => by
    unfold parseListSection
    have hne : bulletCore (x :: xs) ≠ [] := by
      cases xs <;> simp [bulletCore]
    have hf1 : (x :: xs).filter (fun i => decide (¬ i = [])) = x :: xs :=
      List.filter_eq_self.mpr (fun a ha => by
        simpa using (itemOk_spec a (List.all_eq_true.mp h a ha)).1)
    have hf2 : (x :: xs).filter
        (fun i => decide (¬ lowerL i = ("none".data))) = x :: xs :=
      List.filter_eq_self.mpr (fun a ha => by
        simpa using (itemOk_spec a (List.all_eq_true.mp h a ha)).2.2.2.2.2)
    rw [if_neg hne, splitLines_bulletCore x xs h, map_stripBullet_items _ h]
    rw [hf1, hf2]

theorem extractSection_eq_take (text label after : List Char) (k : Nat)
    (h1 : scanLabel label text = some after)
    (h2 : markerSearch after = some k) :
    extractSection text label = trim (after.take k) := by
  unfold extractSection
  rw [h1]
  show (match markerSearch after with
    | none => trim after
    | some kk => trim (after.take kk)) = trim (after.take k)
  rw [h2]

theorem extractSection_eq_trim (text label after : List Char)
    (h1 : scanLabel label text = some after)
    (h2 : markerSearch after = none) :
    extractSection text label = trim after := by
  unfold extractSection
  rw [h1]
  show (match markerSearch after with
    | none => trim after
    | some kk => trim (after.take kk)) = trim after
  rw [h2]

theorem bulletCore_head_dash : ∀ xs : List (List Char),
    ∃ r, bulletCore xs = '-' :: r
  | [] => ⟨(" none".data), rfl⟩
  | [x] => ⟨' ' :: x, rfl⟩
  | x :: y :: ys => ⟨' ' :: (x ++ '\n' :: bulletCore (y :: ys)), rfl⟩

/-- C9: round-trip.  Serializing a well-formed `ProposalResult` in the
    NEEDS_APPROVAL/SUMMARY/COMMANDS/FILES/RESPONSE format and parsing the
    result with `parseProposal` recovers the same needsApproval flag,
    summary, response, commands and files (the approval id is regenerated
    and not part of the structure); COMMANDS and FILES are serialized as
    `- ` bulleted lines and well-formedness rules out blank or `none`
    items. -/
theorem C9_serialize_parse_roundtrip (p : ProposalResult)
    (h : wellFormedProposal p = true) :
    parseProposal (serializeProposal p) = some p := by
  unfold wellFormedProposal at h
  simp only [Bool.and_eq_true, decide_eq_true_eq] at h
  obtain ⟨⟨⟨⟨⟨⟨⟨⟨hsC, hsN⟩, hsL⟩, hsR⟩, hpC⟩, hpL⟩, hpR⟩, hcmd⟩, hfil⟩ := h
  have hynC : noColonB (if p.needsApproval then ("yes".data)
      else ("no".data)) = true := by
    cases p.needsApproval <;> decide
  have hser : serializeProposal p =
      ("NEEDS_APPROVAL: ".data) ++
        ((if p.needsApproval then ("yes".data) else ("no".data)) ++
          ('\n' :: (("SUMMARY: ".data) ++
            (p.summary ++ serializedTail p)))) := by
    unfold serializeProposal serializedTail
    simp only [List.append_assoc]
    rfl
  have hexTAIL2 : ∃ b rr,
      '\n' :: (("SUMMARY: ".data) ++ (p.summary ++ serializedTail p)) =
        '\n' :: b :: rr ∧ isWs b = false ∧ isColon b = false :=
    ⟨'S', ("UMMARY: ".data) ++ (p.summary ++ serializedTail p), rfl,
      by decide, by decide⟩
  have hexST : ∃ b rr, serializedTail p = '\n' :: b :: rr ∧
      isWs b = false ∧ isColon b = false :=
    ⟨'C', ("OMMANDS:\n".data) ++ (bulletCore p.commands ++
      ('\n' :: (("FILES:\n".data) ++ (bulletCore p.files ++
        ('\n' :: (("RESPONSE:\n".data) ++ p.response)))))), rfl,
      by decide, by decide⟩
  have hrestST : RestShape (serializedTail p) := Or.inr hexST
  have hexRC : ∃ b rr,
      '\n' :: (("FILES:\n".data) ++ (bulletCore p.files ++
        ('\n' :: (("RESPONSE:\n".data) ++ p.response)))) =
        '\n' :: b :: rr ∧ isWs b = false ∧ isColon b = false :=
    ⟨'F', ("ILES:\n".data) ++ (bulletCore p.files ++
      ('\n' :: (("RESPONSE:\n".data) ++ p.response))), rfl,
      by decide, by decide⟩
  have hrestRC : RestShape ('\n' :: (("FILES:\n".data) ++
      (bulletCore p.files ++ ('\n' :: (("RESPONSE:\n".data) ++
        p.response))))) := Or.inr hexRC
  have hexRF : ∃ b rr,
      '\n' :: (("RESPONSE:\n".data) ++ p.response) =
        '\n' :: b :: rr ∧ isWs b = false ∧ isColon b = false :=
    ⟨'R', ("ESPONSE:\n".data) ++ p.response, rfl, by decide, by decide⟩
  have hrestRF : RestShape ('\n' :: (("RESPONSE:\n".data) ++ p.response)) :=
    Or.inr hexRF
  have hbcC : noColonB (bulletCore p.commands) = true :=
    noColonB_bulletCore _ hcmd
  have hbcF : noColonB (bulletCore p.files) = true :=
    noColonB_bulletCore _ hfil
  -- The NEEDS_APPROVAL line is found at the very start of the text.
  have hNA : scanNA (serializeProposal p) = some p.needsApproval := by
    rw [hser]
    cases p.needsApproval
    · rfl
    · rfl
  -- SUMMARY section: the scan matches inside the concrete header region.
  have hscanS : scanLabel ("SUMMARY".data) (serializeProposal p) =
      some (' ' :: (p.summary ++ serializedTail p)) := by
    rw [hser]
    have e1 : scanLabel ("SUMMARY".data)
        (("NEEDS_APPROVAL: ".data) ++
          ((if p.needsApproval then ("yes".data) else ("no".data)) ++
            ('\n' :: (("SUMMARY: ".data) ++
              (p.summary ++ serializedTail p))))) =
        scanLabel ("SUMMARY".data)
          ((if p.needsApproval then ("yes".data) else ("no".data)) ++
            ('\n' :: (("SUMMARY: ".data) ++
              (p.summary ++ serializedTail p)))) := rfl
    rw [e1, scanLabel_append ("SUMMARY".data) _ _ (by decide) hynC hexTAIL2]
    rfl
  have hmstail : markerSearch (serializedTail p) = some 0 := rfl
  have hmk0 : markerSearch (p.summary ++ serializedTail p) =
      some p.summary.length := by
    rw [markerSearch_append p.summary (serializedTail p) hsC hrestST,
      hmstail]
    simp
  have hmks : markerSearch (' ' :: (p.summary ++ serializedTail p)) =
      some (p.summary.length + 1) := by
    have e : markerSearch (' ' :: (p.summary ++ serializedTail p)) =
        (markerSearch (p.summary ++ serializedTail p)).map (· + 1) := rfl
    rw [e, hmk0]
    rfl
  have hsecS : extractSection (serializeProposal p) ("SUMMARY".data) =
      p.summary := by
    rw [extractSection_eq_take _ _ _ _ hscanS hmks, List.take_succ_cons,
      List.take_left]
    exact trim_cons_ws ' ' p.summary (by decide) hsL hsR
  -- COMMANDS section.
  have hscanC : scanLabel ("COMMANDS".data) (serializeProposal p) =
      some ('\n' :: (bulletCore p.commands ++
        ('\n' :: (("FILES:\n".data) ++ (bulletCore p.files ++
          ('\n' :: (("RESPONSE:\n".data) ++ p.response))))))) := by
    rw [hser]
    have e1 : scanLabel ("COMMANDS".data)
        (("NEEDS_APPROVAL: ".data) ++
          ((if p.needsApproval then ("yes".data) else ("no".data)) ++
            ('\n' :: (("SUMMARY: ".data) ++
              (p.summary ++ serializedTail p))))) =
        scanLabel ("COMMANDS".data)
          ((if p.needsApproval then ("yes".data) else ("no".data)) ++
            ('\n' :: (("SUMMARY: ".data) ++
              (p.summary ++ serializedTail p)))) := rfl
    rw [e1, scanLabel_append ("COMMANDS".data) _ _ (by decide) hynC
      hexTAIL2]
    have e2 : scanLabel ("COMMANDS".data)
        ('\n' :: (("SUMMARY: ".data) ++ (p.summary ++ serializedTail p))) =
        scanLabel ("COMMANDS".data) (p.summary ++ serializedTail p) := rfl
    rw [e2, scanLabel_append ("COMMANDS".data) _ _ (by decide) hsC hexST]
    rfl
  obtain ⟨rC, hrC⟩ := bulletCore_head_dash p.commands
  have hmkRC : markerSearch ('\n' :: (("FILES:\n".data) ++
      (bulletCore p.files ++ ('\n' :: (("RESPONSE:\n".data) ++
        p.response))))) = some 0 := rfl
  have hmkC0 : markerSearch (bulletCore p.commands ++
      ('\n' :: (("FILES:\n".data) ++ (bulletCore p.files ++
        ('\n' :: (("RESPONSE:\n".data) ++ p.response)))))) =
      some (bulletCore p.commands).length := by
    rw [markerSearch_append _ _ hbcC hrestRC, hmkRC]
    simp
  have hmkC : markerSearch ('\n' :: (bulletCore p.commands ++
      ('\n' :: (("FILES:\n".data) ++ (bulletCore p.files ++
        ('\n' :: (("RESPONSE:\n".data) ++ p.response))))))) =
      some ((bulletCore p.commands).length + 1) := by
    have e : markerSearch ('\n' :: (bulletCore p.commands ++
        ('\n' :: (("FILES:\n".data) ++ (bulletCore p.files ++
          ('\n' :: (("RESPONSE:\n".data) ++ p.response))))))) =
        (markerSearch (bulletCore p.commands ++
          ('\n' :: (("FILES:\n".data) ++ (bulletCore p.files ++
            ('\n' :: (("RESPONSE:\n".data) ++ p.response))))))).map
          (· + 1) := by
      rw [hrC]
      rfl
    rw [e, hmkC0]
    rfl
  have hsecC : extractSection (serializeProposal p) ("COMMANDS".data) =
      bulletCore p.commands := by
    rw [extractSection_eq_take _ _ _ _ hscanC hmkC, List.take_succ_cons,
      List.take_left]
    exact trim_cons_ws '\n' _ (by decide) (bulletCore_stable _ hcmd).1
      (bulletCore_stable _ hcmd).2
  have hlistC : parseListSection
      (extractSection (serializeProposal p) ("COMMANDS".data)) =
      p.commands := by
    rw [hsecC]
    exact parseListSection_bulletCore _ hcmd
  -- FILES section.
  have hscanF : scanLabel ("FILES".data) (serializeProposal p) =
      some ('\n' :: (bulletCore p.files ++
        ('\n' :: (("RESPONSE:\n".data) ++ p.response)))) := by
    rw [hser]
    have e1 : scanLabel ("FILES".data)
        (("NEEDS_APPROVAL: ".data) ++
          ((if p.needsApproval then ("yes".data) else ("no".data)) ++
            ('\n' :: (("SUMMARY: ".data) ++
              (p.summary ++ serializedTail p))))) =
        scanLabel ("FILES".data)
          ((if p.needsApproval then ("yes".data) else ("no".data)) ++
            ('\n' :: (("SUMMARY: ".data) ++
              (p.summary ++ serializedTail p)))) := rfl
    rw [e1, scanLabel_append ("FILES".data) _ _ (by decide) hynC hexTAIL2]
    have e2 : scanLabel ("FILES".data)
        ('\n' :: (("SUMMARY: ".data) ++ (p.summary ++ serializedTail p))) =
        scanLabel ("FILES".data) (p.summary ++ serializedTail p) := rfl
    rw [e2, scanLabel_append ("FILES".data) _ _ (by decide) hsC hexST]
    have e3 : scanLabel ("FILES".data) (serializedTail p) =
        scanLabel ("FILES".data) (bulletCore p.commands ++
          ('\n' :: (("FILES:\n".data) ++ (bulletCore p.files ++
            ('\n' :: (("RESPONSE:\n".data) ++ p.response)))))) := rfl
    rw [e3, scanLabel_append ("FILES".data) _ _ (by decide) hbcC hexRC]
    rfl
  obtain ⟨rF, hrF⟩ := bulletCore_head_dash p.files
  have hmkRF : markerSearch ('\n' :: (("RESPONSE:\n".data) ++
      p.response)) = some 0 := rfl
  have hmkF0 : markerSearch (bulletCore p.files ++
      ('\n' :: (("RESPONSE:\n".data) ++ p.response))) =
      some (bulletCore p.files).length := by
    rw [markerSearch_append _ _ hbcF hrestRF, hmkRF]
    simp
  have hmkF : markerSearch ('\n' :: (bulletCore p.files ++
      ('\n' :: (("RESPONSE:\n".data) ++ p.response)))) =
      some ((bulletCore p.files).length + 1) := by
    have e : markerSearch ('\n' :: (bulletCore p.files ++
        ('\n' :: (("RESPONSE:\n".data) ++ p.response)))) =
        (markerSearch (bulletCore p.files ++
          ('\n' :: (("RESPONSE:\n".data) ++ p.response)))).map (· + 1) := by
      rw [hrF]
      rfl
    rw [e, hmkF0]
    rfl
  have hsecF : extractSection (serializeProposal p) ("FILES".data) =
      bulletCore p.files := by
    rw [extractSection_eq_take _ _ _ _ hscanF hmkF, List.take_succ_cons,
      List.take_left]
    exact trim_cons_ws '\n' _ (by decide) (bulletCore_stable _ hfil).1
      (bulletCore_stable _ hfil).2
  have hlistF : parseListSection
      (extractSection (serializeProposal p) ("FILES".data)) = p.files := by
    rw [hsecF]
    exact parseListSection_bulletCore _ hfil
  -- RESPONSE section.
  have hscanR : scanLabel ("RESPONSE".data) (serializeProposal p) =
      some ('\n' :: p.response) := by
    rw [hser]
    have e1 : scanLabel ("RESPONSE".data)
        (("NEEDS_APPROVAL: ".data) ++
          ((if p.needsApproval then ("yes".data) else ("no".data)) ++
            ('\n' :: (("SUMMARY: ".data) ++
              (p.summary ++ serializedTail p))))) =
        scanLabel ("RESPONSE".data)
          ((if p.needsApproval then ("yes".data) else ("no".data)) ++
            ('\n' :: (("SUMMARY: ".data) ++
              (p.summary ++ serializedTail p)))) := rfl
    rw [e1, scanLabel_append ("RESPONSE".data) _ _ (by decide) hynC
      hexTAIL2]
    have e2 : scanLabel ("RESPONSE".data)
        ('\n' :: (("SUMMARY: ".data) ++ (p.summary ++ serializedTail p))) =
        scanLabel ("RESPONSE".data) (p.summary ++ serializedTail p) := rfl
    rw [e2, scanLabel_append ("RESPONSE".data) _ _ (by decide) hsC hexST]
    have e3 : scanLabel ("RESPONSE".data) (serializedTail p) =
        scanLabel ("RESPONSE".data) (bulletCore p.commands ++
          ('\n' :: (("FILES:\n".data) ++ (bulletCore p.files ++
            ('\n' :: (("RESPONSE:\n".data) ++ p.response)))))) := rfl
    rw [e3, scanLabel_append ("RESPONSE".data) _ _ (by decide) hbcC hexRC]
    have e4 : scanLabel ("RESPONSE".data)
        ('\n' :: (("FILES:\n".data) ++ (bulletCore p.files ++
          ('\n' :: (("RESPONSE:\n".data) ++ p.response))))) =
        scanLabel ("RESPONSE".data) (bulletCore p.files ++
          ('\n' :: (("RESPONSE:\n".data) ++ p.response))) := rfl
    rw [e4, scanLabel_append ("RESPONSE".data) _ _ (by decide) hbcF hexRF]
    rfl
  have hnlresp : noColonB ('\n' :: p.response) = true := by
    have hh := hpC
    unfold noColonB at hh ⊢
    rw [List.all_cons, hh]
    decide
  have hmkR : markerSearch ('\n' :: p.response) = none := by
    have e := markerSearch_append ('\n' :: p.response) [] hnlresp
      (Or.inl rfl)
    rw [List.append_nil] at e
    rw [e]
    rfl
  have hsecR : extractSection (serializeProposal p) ("RESPONSE".data) =
      p.response := by
    rw [extractSection_eq_trim _ _ _ hscanR hmkR]
    exact trim_cons_ws '\n' _ (by decide) hpL hpR
  have hout : parseProposal (serializeProposal p) = some
      { needsApproval := p.needsApproval
        summary := extractSection (serializeProposal p) ("SUMMARY".data)
        response := extractSection (serializeProposal p) ("RESPONSE".data)
        commands := parseListSection
          (extractSection (serializeProposal p) ("COMMANDS".data))
        files := parseListSection
          (extractSection (serializeProposal p) ("FILES".data)) } := by
    unfold parseProposal
    rw [hNA]
  rw [hout, hsecS, hsecR, hlistC, hlistF]

theorem C9_serialize_parse_roundtrip_witness :
    wellFormedProposal
        { needsApproval := true
          summary := ("Run tests".data)
          response := ("Will run the project tests".data)
          commands := [("npm test".data)]
          files := [] } = true ∧
      parseProposal (serializeProposal
        { needsApproval := true
          summary := ("Run tests".data)
          response := ("Will run the project tests".data)
          commands := [("npm test".data)]
          files := [] }) = some
        { needsApproval := true
          summary := ("Run tests".data)
          response := ("Will run the project tests".data)
          commands := [("npm test".data)]
          files := [] } :=
  ⟨by decide, C9_serialize_parse_roundtrip _ (by decide)⟩

end NanoCrab
